import Mathlib

/-!
Verification of the `compiler` repository (a whole-program compiler for a small
C-family language lowered to a stack-machine assembly) against its natural
language specification.

The development shallowly embeds the relevant source files:
  * `src/frontend/tokenizer.cpp` (token kinds and the `addNextToken` /
    `tokenize` loop),
  * `src/backend/SymbolTable.cpp` (scoped variable maps, flat function map,
    block enter/leave address bookkeeping),
  * `src/backend/codegen.cpp` (the `CodegenVisitor` lowering of the AST to
    textual stack-machine instructions),
  * `src/middleend/ast-optimizers.cpp` (the optimizer passes and the default
    pipeline assembled in `src/main.cpp`).

Modelling conventions:
  * C++ `double` values are modelled as `ℚ`.  No settled claim depends on
    IEEE-754 rounding: constant values only ever matter through the exact
    comparisons `|v| < 1e-9` and `|v - 1| < 1e-9` of the optimizer, and the
    counterexamples below avoid constant folding entirely.
  * C strings are `List Char` / `String`; the terminating NUL of the C string
    is the end of the list.
  * `std::map` becomes an association list (uniqueness of keys is enforced by
    the same guards the source uses).
  * exceptions (`SyntaxError`, `RedefinitionError`, `std::logic_error`,
    `std::out_of_range`) become an `Except CompileError` result.
  * code paths that are undefined behaviour in the source (failed `assert`,
    `dynamic_cast` to the wrong class followed by a dereference, reading
    `variables.front()` of an empty list) are modelled as `LogicError`
    results or identity, and are noted where they occur; no theorem below
    depends on such a path.
-/

/-- Source `(line, column)` origin attached to tokens and diagnostics
(`src/util/TokenOrigin.h`). -/
structure TokenOrigin where
  line : Nat
  column : Nat
deriving DecidableEq, Repr

/-- Error hierarchy of the compiler (`src/util/SyntaxError.h`,
`src/util/RedefinitionError.h`, `std::logic_error`, `std::out_of_range`),
collapsed into one sum so that every fallible operation can return
`Except CompileError`. -/
inductive CompileError where
  | SyntaxError (origin : Option TokenOrigin) (message : String)
  | RedefinitionError (name : String) (newDefinition oldDefinition : TokenOrigin)
  | LogicError (message : String)
  | OutOfRange (message : String)
deriving DecidableEq, Repr

/-- Source `enum OperatorType` of `src/frontend/tokenizer.h`. -/
inductive OperatorType where
  | ADDITION
  | SUBTRACTION
  | MULTIPLICATION
  | DIVISION
  | ARITHMETIC_NEGATION
  | UNARY_ADDITION
  | POWER
  | ASSIGNMENT
deriving DecidableEq, Repr

/-- Source `enum ComparisonOperatorType` of `src/frontend/tokenizer.h`. -/
inductive ComparisonOperatorType where
  | LESS
  | LESS_OR_EQUAL
  | GREATER
  | GREATER_OR_EQUAL
  | EQUAL
  | NOT_EQUAL
deriving DecidableEq, Repr

/-- Source `enum ParenthesisType` of `src/frontend/tokenizer.h`. -/
inductive ParenthesisType where
  | ROUND
  | CURLY
deriving DecidableEq, Repr

/-- Token kinds, as discriminated by `Token::getType()`.  The compiler-era
header defining the `ID`, `COMMA` and keyword token types is not present under
`src/` (only an older revision of `tokenizer.h` survives there); those type
tags are modelled from the spec (§3 Token: keywords are distinguished from
identifiers) and from their uses in `src/frontend/tokenizer.cpp`
(`TokenType::ID`, `CommaToken`, `IfToken`, `ElseToken`, `WhileToken`,
`FuncToken`, `VarToken`, `ReturnToken`). -/
inductive TokenType where
  | CONSTANT_VALUE
  | PARENTHESIS
  | OPERATOR
  | COMPARISON_OPERATOR
  | ID
  | SEMICOLON
  | COMMA
  | IF
  | ELSE
  | WHILE
  | FUNC
  | VAR
  | RETURN
deriving DecidableEq, Repr

/-- A token together with its payload, mirroring the `Token` class hierarchy
of `src/frontend/tokenizer.h` (one constructor per concrete token class;
each carries its origin). -/
inductive Token where
  | constantValue (originPos : TokenOrigin) (value : ℚ)
  | parenthesis (originPos : TokenOrigin) (isOpen : Bool) (ptype : ParenthesisType)
  | operatorTok (originPos : TokenOrigin) (operatorType : OperatorType)
  | comparisonOperator (originPos : TokenOrigin) (operatorType : ComparisonOperatorType)
  | idTok (originPos : TokenOrigin) (name : String)
  | semicolon (originPos : TokenOrigin)
  | comma (originPos : TokenOrigin)
  | ifTok (originPos : TokenOrigin)
  | elseTok (originPos : TokenOrigin)
  | whileTok (originPos : TokenOrigin)
  | funcTok (originPos : TokenOrigin)
  | varTok (originPos : TokenOrigin)
  | returnTok (originPos : TokenOrigin)
deriving DecidableEq, Repr

/-- Source `Token::getType()`. -/
def Token.getType : Token → TokenType
  | .constantValue _ _ => .CONSTANT_VALUE
  | .parenthesis _ _ _ => .PARENTHESIS
  | .operatorTok _ _ => .OPERATOR
  | .comparisonOperator _ _ => .COMPARISON_OPERATOR
  | .idTok _ _ => .ID
  | .semicolon _ => .SEMICOLON
  | .comma _ => .COMMA
  | .ifTok _ => .IF
  | .elseTok _ => .ELSE
  | .whileTok _ => .WHILE
  | .funcTok _ => .FUNC
  | .varTok _ => .VAR
  | .returnTok _ => .RETURN

/-- Source `isCloseRoundParenthesisToken` of `src/frontend/tokenizer.cpp`. -/
def isCloseRoundParenthesisToken : Token → Bool
  | .parenthesis _ isOpen ptype => !isOpen && ptype = ParenthesisType.ROUND
  | _ => false

/-- Source `std::isspace` on the ASCII characters the tokenizer can meet. -/
def isSpaceChar (c : Char) : Bool :=
  c = ' ' || c = '\t' || c = '\n' || c = Char.ofNat 11 || c = Char.ofNat 12 || c = '\r'

/-- Source `isdigit`. -/
def isDigitChar (c : Char) : Bool :=
  '0' ≤ c && c ≤ '9'

/-- Source `isalpha`. -/
def isAlphaChar (c : Char) : Bool :=
  ('a' ≤ c && c ≤ 'z') || ('A' ≤ c && c ≤ 'Z')

/-- Source `MAX_ID_LENGTH` of `src/util/constants.h`. -/
def MAX_ID_LENGTH : Nat := 256

/-- The whitespace-skipping loop at the head of `addNextToken`
(`src/frontend/tokenizer.cpp:186-194`): newline advances `line` and resets
`column` to 1, any other whitespace advances `column`. -/
def skipWhitespace : List Char → TokenOrigin → List Char × TokenOrigin
  | [], o => ([], o)
  | c :: cs, o =>
    if isSpaceChar c then
      skipWhitespace cs (if c = '\n' then ⟨o.line + 1, 1⟩ else ⟨o.line, o.column + 1⟩)
    else (c :: cs, o)

/-- Digit-string to number. -/
def digitsToNat (ds : List Char) : Nat :=
  ds.foldl (fun a c => a * 10 + (c.toNat - '0'.toNat)) 0

/-- Exponent part of `strtod` (`e`/`E`, optional sign, at least one digit;
consumed only when a digit follows).  Returns the exponent, the number of
characters consumed and the remaining input. -/
def parseExponent (cs : List Char) : Int × Nat × List Char :=
  match cs with
  | c :: r =>
    if c = 'e' || c = 'E' then
      match r with
      | '+' :: r2 =>
        let ds := r2.takeWhile isDigitChar
        if ds.isEmpty then (0, 0, cs)
        else ((digitsToNat ds : Int), 2 + ds.length, r2.dropWhile isDigitChar)
      | '-' :: r2 =>
        let ds := r2.takeWhile isDigitChar
        if ds.isEmpty then (0, 0, cs)
        else (-(digitsToNat ds : Int), 2 + ds.length, r2.dropWhile isDigitChar)
      | _ =>
        let ds := r.takeWhile isDigitChar
        if ds.isEmpty then (0, 0, cs)
        else ((digitsToNat ds : Int), 1 + ds.length, r.dropWhile isDigitChar)
    else (0, 0, cs)
  | [] => (0, 0, cs)

/-- Source `strtod(expression, &expression)` as used at
`src/frontend/tokenizer.cpp:277`, modelled for decimal literals (the branch is
guarded by `isdigit`, so the input starts with a digit; the spec §4.1 describes
the accepted numbers as decimals with optional fractional part and signed
decimal exponent).  Returns the value, the number of characters consumed and
the remaining input. -/
def parseNumber (cs : List Char) : ℚ × Nat × List Char :=
  let intDigits := cs.takeWhile isDigitChar
  let rest1 := cs.dropWhile isDigitChar
  let fracStep : List Char × Nat :=
    match rest1 with
    | '.' :: r => (r, 1)
    | _ => (rest1, 0)
  let fracDigits := if fracStep.2 = 1 then fracStep.1.takeWhile isDigitChar else []
  let rest2 := if fracStep.2 = 1 then fracStep.1.dropWhile isDigitChar else rest1
  let expResult := parseExponent rest2
  let mantissa : ℚ :=
    (digitsToNat intDigits : ℚ) + (digitsToNat fracDigits : ℚ) / (10 : ℚ) ^ fracDigits.length
  let value : ℚ := mantissa * (10 : ℚ) ^ expResult.1
  (value,
   intDigits.length + fracStep.2 + fracDigits.length + expResult.2.1,
   expResult.2.2)

/-- The identifier/keyword loop of `src/frontend/tokenizer.cpp:280-284`:
a do-while that always consumes the first character and then keeps consuming
letters and digits while fewer than `MAX_ID_LENGTH` characters were taken.
Returns the collected name and the remaining input. -/
def takeName : List Char → List Char × List Char
  | [] => ([], [])
  | c :: cs =>
    let go : Nat → List Char → List Char × List Char :=
      fun n l => ((l.take n).takeWhile (fun d => isAlphaChar d || isDigitChar d),
                  (l.drop ((l.take n).takeWhile (fun d => isAlphaChar d || isDigitChar d)).length))
    let tail := go (MAX_ID_LENGTH - 1) cs
    (c :: tail.1, tail.2)

/-- One step of the tokenizer: `addNextToken` of `src/frontend/tokenizer.cpp`.
Returns `none` when the end of input is reached, otherwise the remaining
input, the updated origin and the extended token list. -/
def addNextToken (expression : List Char) (currentTokenOrigin : TokenOrigin)
    (tokens : List Token) :
    Except CompileError (Option (List Char × TokenOrigin × List Token)) :=
  let ws := skipWhitespace expression currentTokenOrigin
  let o := ws.2
  match ws.1 with
  | [] => .ok none
  | c :: rest =>
    -- `*expression == '\0'` ends the scan; a NUL inside the buffer behaves
    -- like the end of the C string.
    if c = Char.ofNat 0 then .ok none
    else if c = ';' then
      .ok (some (rest, ⟨o.line, o.column + 1⟩, tokens ++ [.semicolon o]))
    else if c = ',' then
      .ok (some (rest, ⟨o.line, o.column + 1⟩, tokens ++ [.comma o]))
    else if c = '(' then
      .ok (some (rest, ⟨o.line, o.column + 1⟩, tokens ++ [.parenthesis o true .ROUND]))
    else if c = ')' then
      .ok (some (rest, ⟨o.line, o.column + 1⟩, tokens ++ [.parenthesis o false .ROUND]))
    else if c = '{' then
      .ok (some (rest, ⟨o.line, o.column + 1⟩, tokens ++ [.parenthesis o true .CURLY]))
    else if c = '}' then
      .ok (some (rest, ⟨o.line, o.column + 1⟩, tokens ++ [.parenthesis o false .CURLY]))
    else if c = '*' then
      .ok (some (rest, ⟨o.line, o.column + 1⟩, tokens ++ [.operatorTok o .MULTIPLICATION]))
    else if c = '/' then
      .ok (some (rest, ⟨o.line, o.column + 1⟩, tokens ++ [.operatorTok o .DIVISION]))
    else if c = '+' || c = '-' then
      let previousToken := tokens.getLast?
      let isBinary :=
        match previousToken with
        | none => false
        | some prev =>
          prev.getType = TokenType.CONSTANT_VALUE || prev.getType = TokenType.ID ||
            isCloseRoundParenthesisToken prev
      let newTok : Token :=
        if isBinary then
          if c = '+' then .operatorTok o .ADDITION else .operatorTok o .SUBTRACTION
        else
          if c = '+' then .operatorTok o .UNARY_ADDITION else .operatorTok o .ARITHMETIC_NEGATION
      .ok (some (rest, ⟨o.line, o.column + 1⟩, tokens ++ [newTok]))
    else if c = '^' then
      .ok (some (rest, ⟨o.line, o.column + 1⟩, tokens ++ [.operatorTok o .POWER]))
    else if c = '<' then
      match rest with
      | '=' :: rest2 =>
        .ok (some (rest2, ⟨o.line, o.column + 2⟩, tokens ++ [.comparisonOperator o .LESS_OR_EQUAL]))
      | _ =>
        .ok (some (rest, ⟨o.line, o.column + 1⟩, tokens ++ [.comparisonOperator o .LESS]))
    else if c = '>' then
      match rest with
      | '=' :: rest2 =>
        .ok (some (rest2, ⟨o.line, o.column + 2⟩,
          tokens ++ [.comparisonOperator o .GREATER_OR_EQUAL]))
      | _ =>
        .ok (some (rest, ⟨o.line, o.column + 1⟩, tokens ++ [.comparisonOperator o .GREATER]))
    else if c = '=' then
      match rest with
      | '=' :: rest2 =>
        .ok (some (rest2, ⟨o.line, o.column + 2⟩, tokens ++ [.comparisonOperator o .EQUAL]))
      | _ =>
        .ok (some (rest, ⟨o.line, o.column + 1⟩, tokens ++ [.operatorTok o .ASSIGNMENT]))
    else if c = '!' && rest.head? = some '=' then
      .ok (some (rest.tail, ⟨o.line, o.column + 2⟩,
        tokens ++ [.comparisonOperator o .NOT_EQUAL]))
    else if isDigitChar c then
      let p := parseNumber (c :: rest)
      .ok (some (p.2.2, ⟨o.line, o.column + p.2.1⟩, tokens ++ [.constantValue o p.1]))
    else if isAlphaChar c then
      let nm := takeName (c :: rest)
      let word := String.mk nm.1
      let tok : Token :=
        if word = "if" then .ifTok o
        else if word = "else" then .elseTok o
        else if word = "while" then .whileTok o
        else if word = "func" then .funcTok o
        else if word = "var" then .varTok o
        else if word = "return" then .returnTok o
        else .idTok o word
      .ok (some (nm.2, ⟨o.line, o.column + nm.1.length⟩, tokens ++ [tok]))
    else
      .error (.SyntaxError (some o) ("Invalid symbol " ++ String.mk [c] ++ " found"))

/-- The `tokenize` driver loop of `src/frontend/tokenizer.cpp:173-181`,
with fuel bounded by the input length (each `addNextToken` step consumes at
least one character, so the fuel is never exhausted on the paths the theorems
exercise, which are all evaluated concretely). -/
def tokenizeAux : Nat → List Char → TokenOrigin → List Token →
    Except CompileError (List Token)
  | 0, _, _, _ => .error (.LogicError "tokenizer fuel exhausted")
  | fuel + 1, cs, o, tokens =>
    match addNextToken cs o tokens with
    | .error e => .error e
    | .ok none => .ok tokens
    | .ok (some (rest, o2, tokens2)) => tokenizeAux fuel rest o2 tokens2

/-- Source `tokenize(char* expression)`. -/
def tokenize (expression : List Char) : Except CompileError (List Token) :=
  tokenizeAux (expression.length + 1) expression ⟨1, 1⟩ []

/-! ## Symbol table (`src/backend/SymbolTable.cpp`) -/

/-- Source `enum Type` of `src/backend/SymbolTable.h`. -/
inductive Ty where
  | VOID
  | DOUBLE
deriving DecidableEq, Repr

/-- Source `VARIABLE_SIZE_IN_BYTES` of `src/util/constants.h`. -/
def VARIABLE_SIZE_IN_BYTES : Nat := 8

/-- The fake origin `{ INT64_MAX, INT64_MAX }` used for internal symbols and
for the expected `main` declaration. -/
def fakeOrigin : TokenOrigin := ⟨9223372036854775807, 9223372036854775807⟩

/-- Source `struct VariableSymbol`: local address and declaration origin. -/
structure VariableSymbol where
  address : Nat
  originPos : TokenOrigin
deriving DecidableEq, Repr

/-- Source `struct FunctionSymbol`: either a user label (non-internal constructor,
label named after the function) or an internal opcode name. -/
structure FunctionSymbol where
  label : Option String
  internalName : Option String
  returnType : Ty
  argumentsNumber : Nat
  originPos : TokenOrigin
deriving DecidableEq, Repr

/-- The non-internal `FunctionSymbol` constructor: the label carries the
function's own name. -/
def FunctionSymbol.user (functionName : String) (returnType : Ty)
    (argumentsNumber : Nat) (originPos : TokenOrigin) : FunctionSymbol :=
  ⟨some functionName, none, returnType, argumentsNumber, originPos⟩

/-- The internal `FunctionSymbol` constructor (origin `{INT64_MAX, INT64_MAX}`). -/
def FunctionSymbol.internal (functionName : String) (returnType : Ty)
    (argumentsNumber : Nat) : FunctionSymbol :=
  ⟨none, some functionName, returnType, argumentsNumber, fakeOrigin⟩

/-- Source `FunctionSymbol::isInternal`. -/
def FunctionSymbol.isInternal (s : FunctionSymbol) : Bool :=
  s.internalName.isSome

/-- Source `FunctionSymbol::isVoid`. -/
def FunctionSymbol.isVoid (s : FunctionSymbol) : Bool :=
  s.returnType = Ty.VOID

/-- One lexical scope: the `std::map<char*, shared_ptr<VariableSymbol>>` of a
block, as an association list keyed by variable name. -/
abbrev Scope := List (String × VariableSymbol)

/-- Lookup in one scope (`block.count(name)` / `block.at(name)`). -/
def lookupVar (scope : Scope) (name : String) : Option VariableSymbol :=
  (scope.find? (fun p => p.1 = name)).map (·.2)

/-- Source `class SymbolTable`: the forward list of scopes (the `variables` member,
renamed `scopes` because `variables` is reserved in Lean; front = innermost),
the `nextLocalVariableAddress` counter and the flat function map. -/
structure SymbolTable where
  scopes : List Scope
  nextLocalVariableAddress : Nat
  functions : List (String × FunctionSymbol)
deriving DecidableEq, Repr

/-- The `SymbolTable` constructor: one (outermost) empty scope and the three
pre-registered built-ins `read → IN`, `print → OUT`, `sqrt → SQRT`
(`src/backend/SymbolTable.cpp:49-55`). -/
def SymbolTable.initial : SymbolTable where
  scopes := [[]]
  nextLocalVariableAddress := 0
  functions :=
    [("read", FunctionSymbol.internal "IN" .DOUBLE 0),
     ("print", FunctionSymbol.internal "OUT" .VOID 1),
     ("sqrt", FunctionSymbol.internal "SQRT" .DOUBLE 1)]

/-- Source `variables.front()`.  Reading the front of an empty list is undefined
behaviour in the source; the model returns the empty scope there (no settled
claim exercises that path). -/
def SymbolTable.front (st : SymbolTable) : Scope :=
  st.scopes.headD []

/-- Source `SymbolTable::hasVariable`: scan the scopes front to back. -/
def SymbolTable.hasVariable (st : SymbolTable) (name : String) : Bool :=
  st.scopes.any (fun block => (lookupVar block name).isSome)

/-- Source `SymbolTable::getVariableByName`: first match scanning front to back;
`std::out_of_range` when no scope holds the name. -/
def SymbolTable.getVariableByName (st : SymbolTable) (name : String) :
    Except CompileError VariableSymbol :=
  match st.scopes.findSome? (fun block => lookupVar block name) with
  | some symbol => .ok symbol
  | none => .error (.OutOfRange "Variable not found")

/-- Source `SymbolTable::addVariable`: redefinition in the innermost scope is an
error carrying the new and the original declaration origins; otherwise the
symbol gets `nextLocalVariableAddress`, which then advances by
`VARIABLE_SIZE_IN_BYTES` (`src/backend/SymbolTable.cpp:69-78`). -/
def SymbolTable.addVariable (st : SymbolTable) (name : String)
    (originPos : TokenOrigin) : Except CompileError (VariableSymbol × SymbolTable) :=
  if (lookupVar st.front name).isSome then
    match st.scopes.findSome? (fun block => lookupVar block name) with
    | some original => .error (.RedefinitionError name originPos original.originPos)
    | none => .error (.OutOfRange "Variable not found")
  else
    let symbol : VariableSymbol := ⟨st.nextLocalVariableAddress, originPos⟩
    .ok (symbol,
      { st with
        scopes := ((name, symbol) :: st.front) :: st.scopes.tail,
        nextLocalVariableAddress :=
          st.nextLocalVariableAddress + VARIABLE_SIZE_IN_BYTES })

/-- Source `SymbolTable::hasFunction`. -/
def SymbolTable.hasFunction (st : SymbolTable) (name : String) : Bool :=
  (st.functions.find? (fun p => p.1 = name)).isSome

/-- Source `SymbolTable::getFunctionByName` (an unguarded `functions.at`). -/
def SymbolTable.getFunctionByName (st : SymbolTable) (name : String) :
    Except CompileError FunctionSymbol :=
  match (st.functions.find? (fun p => p.1 = name)).map (·.2) with
  | some symbol => .ok symbol
  | none => .error (.OutOfRange "function not found")

/-- Source `SymbolTable::addFunction`: program-wide redefinition is an error;
otherwise the symbol is a non-internal one labelled with the function name. -/
def SymbolTable.addFunction (st : SymbolTable) (name : String) (returnType : Ty)
    (argumentsNumber : Nat) (originPos : TokenOrigin) :
    Except CompileError (FunctionSymbol × SymbolTable) :=
  if st.hasFunction name then
    match (st.functions.find? (fun p => p.1 = name)).map (·.2) with
    | some original => .error (.RedefinitionError name originPos original.originPos)
    | none => .error (.OutOfRange "function not found")
  else
    let symbol := FunctionSymbol.user name returnType argumentsNumber originPos
    .ok (symbol, { st with functions := (name, symbol) :: st.functions })

/-- Source `SymbolTable::enterBlock`: push an empty innermost scope. -/
def SymbolTable.enterBlock (st : SymbolTable) : SymbolTable :=
  { st with scopes := [] :: st.scopes }

/-- Source `SymbolTable::leaveBlock` (`src/backend/SymbolTable.cpp:142-154`): pop the
innermost scope, then set `nextLocalVariableAddress` to the maximum address in
the newly exposed front scope plus `VARIABLE_SIZE_IN_BYTES`, the maximum of an
empty scope being `0u`. -/
def SymbolTable.leaveBlock (st : SymbolTable) : SymbolTable :=
  match st.scopes with
  | [] => st  -- popping an empty scope list is undefined behaviour in the source
  | _ :: rest =>
    let maxLocalVariableAddress :=
      (rest.headD []).foldl (fun m p => max m p.2.address) 0
    { st with
      scopes := rest,
      nextLocalVariableAddress := maxLocalVariableAddress + VARIABLE_SIZE_IN_BYTES }

/-- Source `SymbolTable::enterFunction`: enter a block and reset the address counter. -/
def SymbolTable.enterFunction (st : SymbolTable) : SymbolTable :=
  { st.enterBlock with nextLocalVariableAddress := 0 }

/-- Source `SymbolTable::leaveFunction`. -/
def SymbolTable.leaveFunction (st : SymbolTable) : SymbolTable :=
  st.leaveBlock

/-! ## Code generator (`src/backend/codegen.cpp`)

The AST below mirrors the compiler-era `ast.h` (the revision whose `NodeType`
has no variable-declaration node, matching the visitor methods implemented in
`src/backend/codegen.cpp`).  Where the C++ constructors enforce a shape
(`IfNode`/`IfElseNode`/`WhileNode` take a `ComparisonOperatorNode` condition,
`ParametersListNode` children are all `VariableNode`, `FunctionCallNode`
holds an `ArgumentsListNode`), the Lean constructors carry the enforced shape
directly. -/

/-- AST of the compiler backend. -/
inductive Ast where
  | constantValue (value : ℚ)
  | variableNode (name : String) (originPos : TokenOrigin)
  | operatorNode (operatorType : OperatorType) (children : List Ast)
  | comparisonNode (operatorType : ComparisonOperatorType) (leftChild rightChild : Ast)
  | statementsNode (children : List Ast)
  | blockNode (child : Ast)
  | ifNode (operatorType : ComparisonOperatorType) (condLeft condRight : Ast) (body : Ast)
  | ifElseNode (operatorType : ComparisonOperatorType) (condLeft condRight : Ast)
      (ifBody elseBody : Ast)
  | whileNode (operatorType : ComparisonOperatorType) (condLeft condRight : Ast) (body : Ast)
  | parametersListNode (parameters : List (String × TokenOrigin))
  | functionDefinitionNode (name : String) (nameOrigin : TokenOrigin)
      (parameters : List (String × TokenOrigin)) (body : Ast)
  | functionCallNode (name : String) (nameOrigin : TokenOrigin) (args : List Ast)
  | returnStatementNode (child : Ast)
deriving Repr

/-- Registers of the target machine. -/
inductive Reg where
  | AX
  | BX
  | CX
  | DX
deriving DecidableEq, Repr

/-- One emitted line of the stack-machine listing (the `fprintf` calls of
`src/backend/codegen.cpp`). -/
inductive Instr where
  | push (value : ℚ)
  | pushRam (address : Nat)
  | pushRamByReg (reg : Reg)
  | pushReg (reg : Reg)
  | pop
  | popRam (address : Nat)
  | popRamByReg (reg : Reg)
  | popReg (reg : Reg)
  | add
  | sub
  | mul
  | div
  | pow
  | jmp (label : String)
  | jmpl (label : String)
  | jmple (label : String)
  | jmpg (label : String)
  | jmpge (label : String)
  | jmpe (label : String)
  | jmpne (label : String)
  | labelDef (name : String)
  | callLabel (label : String)
  | internalOp (name : String)
  | ret
  | hlt
deriving DecidableEq, Repr

/-- State of the `CodegenVisitor`: the owned symbol table, the listing emitted
so far, and the static `Label::nextId` counter (consumed both by fresh `L<n>`
labels and by named function labels). -/
structure CGState where
  symbolTable : SymbolTable
  output : List Instr
  labelCounter : Nat
deriving Repr

/-- Append one instruction to the listing. -/
def CGState.emit (st : CGState) (i : Instr) : CGState :=
  { st with output := st.output ++ [i] }

/-- Append several instructions to the listing. -/
def CGState.emits (st : CGState) (l : List Instr) : CGState :=
  { st with output := st.output ++ l }

/-- Source `Label()` — a fresh label named `L<n>` with `n` the next id. -/
def CGState.freshLabel (st : CGState) : String × CGState :=
  ("L" ++ toString st.labelCounter, { st with labelCounter := st.labelCounter + 1 })

/-- Source `CodegenVisitor::negateCompOp` (`src/backend/codegen.cpp:353-363`). -/
def negateCompOp : ComparisonOperatorType → ComparisonOperatorType
  | .LESS => .GREATER_OR_EQUAL
  | .LESS_OR_EQUAL => .GREATER
  | .GREATER => .LESS_OR_EQUAL
  | .GREATER_OR_EQUAL => .LESS
  | .EQUAL => .NOT_EQUAL
  | .NOT_EQUAL => .EQUAL

/-- The mnemonic table of `CodegenVisitor::condJump`
(`src/backend/codegen.cpp:305-317`). -/
def compJumpInstr : ComparisonOperatorType → String → Instr
  | .LESS, label => .jmpl label
  | .LESS_OR_EQUAL, label => .jmple label
  | .GREATER, label => .jmpg label
  | .GREATER_OR_EQUAL, label => .jmpge label
  | .EQUAL, label => .jmpe label
  | .NOT_EQUAL, label => .jmpne label

/-- Source `CodegenVisitor::condJump(compOp, label, isNegated)`. -/
def condJump (compOp : ComparisonOperatorType) (label : String) (isNegated : Bool) : Instr :=
  compJumpInstr (if isNegated then negateCompOp compOp else compOp) label

/-- Source `CodegenVisitor::arithmeticOperation` (`src/backend/codegen.cpp:323-335`).
`ARITHMETIC_NEGATION` lowers to `PUSH -1` falling through to `MUL`;
`UNARY_ADDITION` emits nothing; `ASSIGNMENT` throws a logic error. -/
def arithmeticOperation : OperatorType → Except CompileError (List Instr)
  | .ADDITION => .ok [.add]
  | .SUBTRACTION => .ok [.sub]
  | .MULTIPLICATION => .ok [.mul]
  | .DIVISION => .ok [.div]
  | .ARITHMETIC_NEGATION => .ok [.push (-1), .mul]
  | .UNARY_ADDITION => .ok []
  | .POWER => .ok [.pow]
  | .ASSIGNMENT => .error (.LogicError "Assignment is not an assignment operation")

/-- Source `CodegenVisitor::getVarByAddress` (`src/backend/codegen.cpp:365-379`):
RAM address is `AX - (nextLocalVariableAddress - address)`; zero offset loads
through `AX` directly, otherwise the offset is computed into `BX`. -/
def getVarByAddress (st : CGState) (address : Nat) : CGState :=
  let offset := st.symbolTable.nextLocalVariableAddress - address
  if offset = 0 then st.emit (.pushRamByReg .AX)
  else st.emits [.pushReg .AX, .push (offset : ℚ), .sub, .popReg .BX, .pushRamByReg .BX]

/-- Source `CodegenVisitor::setVarByAddress` (`src/backend/codegen.cpp:381-395`). -/
def setVarByAddress (st : CGState) (address : Nat) : CGState :=
  let offset := st.symbolTable.nextLocalVariableAddress - address
  if offset = 0 then st.emit (.popRamByReg .AX)
  else st.emits [.pushReg .AX, .push (offset : ℚ), .sub, .popReg .BX, .popRamByReg .BX]

/-- Source `CodegenVisitor::addVariable` (`src/backend/codegen.cpp:397-405`): advance
`AX` by the variable size, then register the variable in the symbol table. -/
def addVariableCG (name : String) (originPos : TokenOrigin) (st : CGState) :
    Except CompileError (VariableSymbol × CGState) := do
  let st1 := st.emits [.pushReg .AX, .push (VARIABLE_SIZE_IN_BYTES : ℚ), .add, .popReg .AX]
  let r ← st1.symbolTable.addVariable name originPos
  .ok (r.1, { st1 with symbolTable := r.2 })

/-- Source `returnsNonVoid` (`src/backend/codegen.cpp:12-25`): numbers, variables,
non-assignment operator nodes, and calls to non-void functions yield a value.
The function-call case reads the symbol table with an unguarded `at`. -/
def returnsNonVoidM (node : Ast) (symbolTable : SymbolTable) :
    Except CompileError Bool :=
  match node with
  | .constantValue _ => .ok true
  | .variableNode _ _ => .ok true
  | .operatorNode operatorType _ => .ok (operatorType ≠ OperatorType.ASSIGNMENT)
  | .functionCallNode name _ _ => do
    let symbol ← symbolTable.getFunctionByName name
    .ok (!symbol.isVoid)
  | _ => .ok false

/-- Source `CodegenVisitor::call` (`src/backend/codegen.cpp:341-347`): internal
functions emit their opcode name directly, others a `CALL` of their label. -/
def callInstr (symbol : FunctionSymbol) : Instr :=
  if symbol.isInternal then .internalOp (symbol.internalName.getD "")
  else .callLabel (symbol.label.getD "")

/-- The per-parameter loop of `CodegenVisitor::visitParametersListNode`
(`src/backend/codegen.cpp:173-181`): store the top of stack into the next
local slot (the offset is zero, so this is `POP [AX]`), then register the
parameter. -/
def visitParamsLoop : List (String × TokenOrigin) → CGState →
    Except CompileError CGState
  | [], st => .ok st
  | (pname, porigin) :: rest, st => do
    let st1 := setVarByAddress st st.symbolTable.nextLocalVariableAddress
    let r ← addVariableCG pname porigin st1
    visitParamsLoop rest r.2

/-- Source `CodegenVisitor::visitParametersListNode` (`src/backend/codegen.cpp:166-184`):
nothing for an empty list; otherwise save `AX` to `CX`, receive each formal
left to right, and push the saved `CX` back. -/
def visitParametersList (parameters : List (String × TokenOrigin)) (st : CGState) :
    Except CompileError CGState :=
  if parameters.isEmpty then .ok st
  else do
    let st1 := st.emit (.popReg .CX)
    let st2 ← visitParamsLoop parameters st1
    .ok (st2.emit (.pushReg .CX))

mutual

/-- Source `ASTNode::accept` dispatched over the visitor methods of
`src/backend/codegen.cpp`. -/
def visit : Ast → CGState → Except CompileError CGState
  | .constantValue value, st => .ok (st.emit (.push value))
  | .variableNode name originPos, st =>
    if st.symbolTable.hasVariable name then do
      let symbol ← st.symbolTable.getVariableByName name
      .ok (getVarByAddress st symbol.address)
    else .error (.SyntaxError (some originPos) "Undeclared variable")
  | .operatorNode operatorType children, st =>
    match children with
    | [child] =>
      -- arity 1: the child is visited and nothing else is emitted
      visit child st
    | [left, right] =>
      if operatorType = .ASSIGNMENT then
        match left with
        | .variableNode variableName variableOrigin => do
          let st1 ←
            if st.symbolTable.hasVariable variableName then pure st
            else do
              let r ← addVariableCG variableName variableOrigin st
              pure r.2
          let st2 ← visit right st1
          let symbol ← st2.symbolTable.getVariableByName variableName
          .ok (setVarByAddress st2 symbol.address)
        | _ =>
          -- `dynamic_cast<VariableNode*>` of a non-variable target, then a
          -- dereference: undefined behaviour in the source
          .error (.LogicError "assignment target is not a variable")
      else do
        let st1 ← visit left st
        let st2 ← visit right st1
        let instrs ← arithmeticOperation operatorType
        .ok (st2.emits instrs)
    | _ =>
      .error (.LogicError "Unsupported arity of operator. Only unary and binary are supported yet")
  | .comparisonNode _ leftChild rightChild, st => do
    let st1 ← visit leftChild st
    visit rightChild st1
  | .statementsNode children, st => visitStatementsList children st
  | .blockNode child, st => do
    let st1 := { st with symbolTable := st.symbolTable.enterBlock }
    let st2 ← visit child st1
    .ok { st2 with symbolTable := st2.symbolTable.leaveBlock }
  | .ifNode operatorType condLeft condRight body, st => do
    let fresh := st.freshLabel
    let st1 ← visit condLeft fresh.2
    let st2 ← visit condRight st1
    let st3 := st2.emit (condJump operatorType fresh.1 true)
    let st4 ← visit body st3
    .ok (st4.emit (.labelDef fresh.1))
  | .ifElseNode operatorType condLeft condRight ifBody elseBody, st => do
    let fresh := st.freshLabel
    let st1 ← visit condLeft fresh.2
    let st2 ← visit condRight st1
    let st3 := st2.emit (condJump operatorType fresh.1 true)
    let freshEnd := st3.freshLabel
    let st4 ← visit ifBody freshEnd.2
    let st5 := (st4.emit (.jmp freshEnd.1)).emit (.labelDef fresh.1)
    let st6 ← visit elseBody st5
    .ok (st6.emit (.labelDef freshEnd.1))
  | .whileNode operatorType condLeft condRight body, st => do
    let freshStart := st.freshLabel
    let freshEnd := freshStart.2.freshLabel
    let st1 := freshEnd.2.emit (.labelDef freshStart.1)
    let st2 ← visit condLeft st1
    let st3 ← visit condRight st2
    let st4 := st3.emit (condJump operatorType freshEnd.1 true)
    let st5 ← visit body st4
    .ok ((st5.emit (.jmp freshStart.1)).emit (.labelDef freshEnd.1))
  | .parametersListNode parameters, st => visitParametersList parameters st
  | .functionDefinitionNode name nameOrigin parameters body, st => do
    let r ← st.symbolTable.addFunction name .DOUBLE parameters.length nameOrigin
    -- the non-internal FunctionSymbol constructor makes a `Label(name)`,
    -- consuming one label id
    let st1 : CGState :=
      { st with symbolTable := r.2, labelCounter := st.labelCounter + 1 }
    let st2 := (st1.emit (.labelDef name)).emit (.pushReg .AX)  -- label + prolog
    let st3 := { st2 with symbolTable := st2.symbolTable.enterFunction }
    let st4 ← visitParametersList parameters st3
    match body with
    | .blockNode inner => do
      -- the block node is visited manually: only its inner statements
      let st5 ← visit inner st4
      let st6 := { st5 with symbolTable := st5.symbolTable.leaveFunction }
      let st7 := st6.emit (.popReg .AX)  -- epilog
      if r.1.isVoid then .ok st7
      else .ok ((st7.emit (.push 0)).emit .ret)  -- implicit return 0
    | _ => .error (.LogicError "assert failed: function body is not a block")
  | .functionCallNode name nameOrigin args, st =>
    if !(st.symbolTable.hasFunction name) then
      .error (.SyntaxError (some nameOrigin) "Undeclared function")
    else do
      let symbol ← st.symbolTable.getFunctionByName name
      if args.length ≠ symbol.argumentsNumber then
        .error (.SyntaxError (some nameOrigin) "Invalid arguments number")
      else do
        let st1 ← visitArgumentsList args st
        .ok (st1.emit (callInstr symbol))
  | .returnStatementNode child, st => do
    let nonVoidReturn ← returnsNonVoidM child st.symbolTable
    let st1 ← visit child st
    let st2 := if nonVoidReturn then st1.emit (.popReg .BX) else st1
    let st3 := st2.emit (.popReg .AX)  -- functionEpilog
    let st4 := if nonVoidReturn then st3.emit (.pushReg .BX) else st3
    .ok (st4.emit .ret)

/-- Source `CodegenVisitor::visitStatementsNode` (`src/backend/codegen.cpp:94-103`):
visit each child and drain a value left on the stack with `POP`. -/
def visitStatementsList : List Ast → CGState → Except CompileError CGState
  | [], st => .ok st
  | child :: rest, st => do
    let st1 ← visit child st
    let b ← returnsNonVoidM child st1.symbolTable
    let st2 := if b then st1.emit .pop else st1
    visitStatementsList rest st2

/-- Source `CodegenVisitor::visitArgumentsListNode` (`src/backend/codegen.cpp:186-191`):
the loop runs from the last child down to the first, so the later arguments
are visited (and their pushes emitted) before the earlier ones. -/
def visitArgumentsList : List Ast → CGState → Except CompileError CGState
  | [], st => .ok st
  | child :: rest, st => do
    let st1 ← visitArgumentsList rest st
    visit child st1

end

/-- Source `CodegenVisitor::codegen` (`src/backend/codegen.cpp:27-42`): the entry
sequence `PUSH 0; POP AX; CALL main; HLT`, the walk of the program, and the
final check that a zero-argument `main` was declared. -/
def codegenProgram (root : Ast) : Except CompileError CGState := do
  let st0 : CGState := ⟨SymbolTable.initial, [], 0⟩
  -- `FunctionSymbol("main", VOID, 0, fakeOrigin)` consumes one label id
  let mainFunction := FunctionSymbol.user "main" .VOID 0 fakeOrigin
  let st1 : CGState := { st0 with labelCounter := st0.labelCounter + 1 }
  let st2 := (((st1.emit (.push 0)).emit (.popReg .AX)).emit
    (callInstr mainFunction)).emit .hlt
  let st3 ← visit root st2
  if !(st3.symbolTable.hasFunction "main") then
    .error (.SyntaxError none "Expected no-arg main function declaration")
  else do
    let m ← st3.symbolTable.getFunctionByName "main"
    if m.argumentsNumber ≠ 0 then
      .error (.SyntaxError none "Expected no-arg main function declaration")
    else .ok st3

/-! ## Optimizer (`src/middleend/ast-optimizers.cpp`, pipeline from `src/main.cpp`)

`ast-optimizers.cpp` works on an AST revision in which every node carries a
token (`node->getToken()`), including `STATEMENTS` and `BLOCK` token types;
the header of that revision is not present under `src/`.  The node/token
universe below is therefore modelled from the spec (§3: numbers, variables,
operator nodes, comparisons, statements, blocks) together with the token-type
discriminations actually performed by `ast-optimizers.cpp`.  The optimizer
functions themselves are translated directly from `ast-optimizers.cpp`. -/

/-- Token carried by an optimizer-era AST node. -/
inductive OToken where
  | constant (value : ℚ)
  | operatorTok (operatorType : OperatorType)
  | variableTok (name : String)
  | comparison (operatorType : ComparisonOperatorType)
  | statements
  | blockTok
deriving DecidableEq, Repr

/-- Optimizer-era AST node: a token plus children
(`ASTNode::getToken`, `ASTNode::getChildren`). -/
inductive ONode where
  | mk (tok : OToken) (children : List ONode)

/-- Source `ASTNode::getToken`. -/
def ONode.tok : ONode → OToken
  | .mk t _ => t

/-- Source `ASTNode::getChildren`. -/
def ONode.children : ONode → List ONode
  | .mk _ cs => cs

/-- Source `COMPARE_EPS` of `src/middleend/ast-optimizers.cpp`. -/
def COMPARE_EPS : ℚ := 1 / 1000000000

/-- Source `isZeroConstant` (`src/middleend/ast-optimizers.cpp:75-77`). -/
def isZeroConstant : OToken → Bool
  | .constant v => |v| < COMPARE_EPS
  | _ => false

/-- Source `isOneConstant` (`src/middleend/ast-optimizers.cpp:79-81`). -/
def isOneConstant : OToken → Bool
  | .constant v => |v - 1| < COMPARE_EPS
  | _ => false

/-- The do-while loop of `UnaryAdditionOptimizer::optimizeCurrent`
(`src/middleend/ast-optimizers.cpp:31-46`): while the node is a unary
addition, replace it by its only child.  A unary-addition node with a child
count other than one fails the source's `assert` (undefined behaviour) and is
modelled as left unchanged. -/
def uplusStrip : ONode → ONode
  | .mk (.operatorTok .UNARY_ADDITION) [c] => uplusStrip c
  | n => n

/-- The do-while loop of `ArithmeticNegationOptimizer::optimizeCurrent`
(`src/middleend/ast-optimizers.cpp:48-73`): while the node is an arithmetic
negation whose only child is an arithmetic negation, replace it by the
grandchild.  Child counts other than one fail the source's `assert`s and are
modelled as left unchanged. -/
def negCollapse : ONode → ONode
  | .mk (.operatorTok .ARITHMETIC_NEGATION)
      [.mk (.operatorTok .ARITHMETIC_NEGATION) [x]] => negCollapse x
  | n => n

/-- The do-while loop of `TrivialAdditionOptimizer::optimizeCurrent`
(`src/middleend/ast-optimizers.cpp:83-108`): while the node is an addition
with a zero-constant operand, replace it by the other operand. -/
def trivAddCur : ONode → ONode
  | .mk (.operatorTok .ADDITION) [l, r] =>
    if isZeroConstant l.tok then trivAddCur r
    else if isZeroConstant r.tok then trivAddCur l
    else .mk (.operatorTok .ADDITION) [l, r]
  | n => n

/-- The do-while loop of `TrivialMultiplicationOptimizer::optimizeCurrent`
(`src/middleend/ast-optimizers.cpp:110-137`): `(0 * x) = 0` and `(x * 1) = x`
keep the left child, `(x * 0) = 0` and `(1 * x) = x` keep the right child. -/
def trivMultCur : ONode → ONode
  | .mk (.operatorTok .MULTIPLICATION) [l, r] =>
    if isZeroConstant l.tok || isOneConstant r.tok then trivMultCur l
    else if isZeroConstant r.tok || isOneConstant l.tok then trivMultCur r
    else .mk (.operatorTok .MULTIPLICATION) [l, r]
  | n => n

/-- Source `OperatorToken::calculate` of the concrete operator classes
(`src/frontend/tokenizer.cpp:36-106`), on exact rationals.  `ASSIGNMENT`
throws a logic error (`none` here); `POWER` is `pow`, exact for integral
exponents and given a placeholder value otherwise (no settled claim folds a
power).  Arity mismatches fail the constructor's `assert`. -/
def calculate : OperatorType → List ℚ → Option ℚ
  | .ADDITION, [l, r] => some (l + r)
  | .SUBTRACTION, [l, r] => some (l - r)
  | .MULTIPLICATION, [l, r] => some (l * r)
  | .DIVISION, [l, r] => some (l / r)
  | .ARITHMETIC_NEGATION, [x] => some (-x)
  | .UNARY_ADDITION, [x] => some x
  | .POWER, [l, r] =>
    if r.den = 1 then
      if 0 ≤ r.num then some (l ^ r.num.toNat) else some ((l ^ r.num.natAbs)⁻¹)
    else some 0
  | .ASSIGNMENT, _ => none
  | _, _ => none

/-- Source `getToken()->calculate(...)`: only operator tokens implement a
calculation. -/
def tokenCalculate : OToken → List ℚ → Option ℚ
  | .operatorTok operatorType, args => calculate operatorType args
  | _, _ => none

/-- Source `ConstantCompressor::optimizeCurrent`
(`src/middleend/ast-optimizers.cpp:139-166`): skip `STATEMENTS`/`BLOCK`
nodes; a node of one or two children all carrying constant tokens is replaced
by a constant node holding the calculated value.  Three or more children throw
a logic error in the source (an aborted compilation), modelled as leaving the
node unchanged; a thrown `calculate` (assignment) likewise. -/
def compressorCur (n : ONode) : ONode :=
  match n with
  | .mk .statements _ => n
  | .mk .blockTok _ => n
  | .mk _ [] => n
  | .mk tok [c] =>
    match c.tok with
    | .constant v =>
      match tokenCalculate tok [v] with
      | some result => .mk (.constant result) []
      | none => n
    | _ => n
  | .mk tok [l, r] =>
    match l.tok, r.tok with
    | .constant lv, .constant rv =>
      match tokenCalculate tok [lv, rv] with
      | some result => .mk (.constant result) []
      | none => n
    | _, _ => n
  | _ => n

/-- Source `CompositeOptimizer::optimizeCurrent` for the `TrivialOperationsOptimizer`
(optimizers in order: trivial multiplication, trivial addition, constant
compression; `src/middleend/ast-optimizers.h:291-295`). -/
def compositeCur (n : ONode) : ONode :=
  compressorCur (trivAddCur (trivMultCur n))

/-- Source `sizeOf` of `uplusStrip` never grows (it returns the node or a
descendant). -/
theorem uplusStrip_sizeOf_le (n : ONode) : sizeOf (uplusStrip n) ≤ sizeOf n := by
  induction n using uplusStrip.induct with
  | case1 c ih =>
    rw [uplusStrip]
    calc sizeOf (uplusStrip c) ≤ sizeOf c := ih
    _ ≤ _ := by simp; omega
  | case2 n h => rw [uplusStrip.eq_def]; split <;> simp_all

/-- Source `sizeOf` of `negCollapse` never grows. -/
theorem negCollapse_sizeOf_le (n : ONode) : sizeOf (negCollapse n) ≤ sizeOf n := by
  induction n using negCollapse.induct with
  | case1 x ih =>
    rw [negCollapse]
    calc sizeOf (negCollapse x) ≤ sizeOf x := ih
    _ ≤ _ := by simp; omega
  | case2 n h => rw [negCollapse.eq_def]; split <;> simp_all

/-- A child is smaller than its node. -/
theorem ONode.sizeOf_lt_of_mem_children {c m : ONode} (h : c ∈ m.children) :
    sizeOf c < sizeOf m := by
  obtain ⟨t, cs⟩ := m
  have := List.sizeOf_lt_of_mem h
  simp only [ONode.children] at this
  simp only [ONode.mk.sizeOf_spec]
  omega

/-- Source `Optimizer::optimize` of the pre-order `UnaryAdditionOptimizer`
(`optimizeChildrenFirst = false`): strip unary additions at the node, then
optimize the children of the result in place. -/
def uplusPass (n : ONode) : ONode :=
  let s := uplusStrip n
  .mk s.tok (s.children.attach.map fun c => uplusPass c.1)
termination_by sizeOf n
decreasing_by
  exact lt_of_lt_of_le (ONode.sizeOf_lt_of_mem_children c.2) (uplusStrip_sizeOf_le n)

/-- Source `Optimizer::optimize` of the pre-order `ArithmeticNegationOptimizer`. -/
def negPass (n : ONode) : ONode :=
  let s := negCollapse n
  .mk s.tok (s.children.attach.map fun c => negPass c.1)
termination_by sizeOf n
decreasing_by
  exact lt_of_lt_of_le (ONode.sizeOf_lt_of_mem_children c.2) (negCollapse_sizeOf_le n)

/-- Source `TrivialOperationsOptimizer::optimize`
(`src/middleend/ast-optimizers.cpp:168-175`): optimize the children
recursively, then apply the composite current-node rewrite. -/
def trivPass (n : ONode) : ONode :=
  compositeCur (.mk n.tok (n.children.attach.map fun c => trivPass c.1))
termination_by sizeOf n
decreasing_by
  exact ONode.sizeOf_lt_of_mem_children c.2

/-- The default optimizer pipeline assembled in `src/main.cpp:29-32`:
unary-plus elision, then double-negation collapse, then the composite
trivial-operations pass. -/
def pipeline (n : ONode) : ONode :=
  trivPass (negPass (uplusPass n))

/-- The binary context of the `+`/`-` disambiguation: the previously emitted
token exists and is a number literal, an identifier, or a closing round
parenthesis. -/
def binaryContext (previousToken : Option Token) : Bool :=
  match previousToken with
  | none => false
  | some prev =>
    prev.getType = TokenType.CONSTANT_VALUE || prev.getType = TokenType.ID ||
      isCloseRoundParenthesisToken prev

/-- C1: for every `+` or `-` character met by the tokenizer, the emitted token
is a binary operator (addition or subtraction) if and only if the previously
emitted token is a number literal, an identifier, or a closing round
parenthesis; in every other context (after `}`, `,`, `;`, another operator, or
at start of input included) the emitted token is unary (unary plus or
negation). -/
theorem plusMinus_binary_iff_prev_number_id_closeRound
    (c : Char) (hc : c = '+' ∨ c = '-') (rest : List Char) (o : TokenOrigin)
    (tokens : List Token) :
    addNextToken (c :: rest) o tokens =
      .ok (some (rest, ⟨o.line, o.column + 1⟩, tokens ++
        [.operatorTok o
          (if binaryContext tokens.getLast? then
            (if c = '+' then .ADDITION else .SUBTRACTION)
          else
            (if c = '+' then .UNARY_ADDITION else .ARITHMETIC_NEGATION))])) := by
  rcases hc with rfl | rfl <;>
    simp only [addNextToken, skipWhitespace, binaryContext] <;>
    norm_num [isSpaceChar, isDigitChar, isAlphaChar] <;>
    rcases tokens.getLast? with _ | prev <;> simp <;> split <;> rfl

/-- C1 witness: a `+` right after a number literal is emitted as the binary addition operator. -/
theorem plusMinus_witness :
    addNextToken ['+'] ⟨1, 2⟩ [Token.constantValue ⟨1, 1⟩ 5] =
      .ok (some ([], ⟨1, 3⟩,
        [Token.constantValue ⟨1, 1⟩ 5, Token.operatorTok ⟨1, 2⟩ .ADDITION])) := by
  have h := plusMinus_binary_iff_prev_number_id_closeRound '+' (Or.inl rfl) []
    ⟨1, 2⟩ [Token.constantValue ⟨1, 1⟩ 5]
  simpa [binaryContext, Token.getType] using h

/-- C9 counterexample: the character `^` is not whitespace, not a digit, not a
letter, and not one of the punctuation or operator characters listed in the
spec, yet the tokenizer does not raise a syntax error on it: it emits a power
operator token. -/
theorem caret_not_listed_but_tokenized :
    isSpaceChar '^' = false ∧ isDigitChar '^' = false ∧ isAlphaChar '^' = false ∧
    '^' ∉ [';', ',', '(', ')', '{', '}', '*', '/', '+', '-', '<', '>', '=', '!'] ∧
    tokenize ['^'] = .ok [Token.operatorTok ⟨1, 1⟩ .POWER] :=
  ⟨by decide, by decide, by decide, by decide, rfl⟩

/-- C9 amended: for every input character that is not whitespace, not NUL, not
a digit, not a letter, not one of the recognized characters (the spec list
extended with `^`), and not a `!` followed by `=`, the tokenizer raises a
syntax error at the current origin naming the offending character. -/
theorem unknown_char_syntax_error
    (c : Char) (rest : List Char) (o : TokenOrigin) (tokens : List Token)
    (h1 : isSpaceChar c = false) (h2 : c ≠ Char.ofNat 0)
    (h3 : isDigitChar c = false) (h4 : isAlphaChar c = false)
    (h5 : c ∉ [';', ',', '(', ')', '{', '}', '*', '/', '+', '-', '^', '<', '>', '='])
    (h6 : ¬(c = '!' ∧ rest.head? = some '=')) :
    addNextToken (c :: rest) o tokens =
      .error (.SyntaxError (some o) ("Invalid symbol " ++ String.mk [c] ++ " found")) := by
  simp only [List.mem_cons, List.mem_singleton, not_or] at h5
  obtain ⟨n1, n2, n3, n4, n5, n6, n7, n8, n9, n10, n11, n12, n13, n14⟩ := h5
  simp only [addNextToken, skipWhitespace, h1, if_false, h2, h3, h4,
    n1, n2, n3, n4, n5, n6, n7, n8, n9, n10, n11, n12, n13, n14]
  simp_all

/-- C9 witness: the amended theorem applied to the concrete character `@`. -/
theorem unknown_char_witness :
    addNextToken ['@'] ⟨1, 1⟩ [] =
      .error (.SyntaxError (some ⟨1, 1⟩) ("Invalid symbol " ++ String.mk ['@'] ++ " found")) :=
  unknown_char_syntax_error '@' [] ⟨1, 1⟩ []
    (by decide) (by decide) (by decide) (by decide) (by decide) (by simp)

/-- A well-formed program (`func main() { x = 1; }`) used to evaluate the
code generator end to end. -/
def mainAssignProgram : Ast :=
  .statementsNode [
    .functionDefinitionNode "main" ⟨1, 6⟩ []
      (.blockNode (.statementsNode [
        .operatorNode .ASSIGNMENT [.variableNode "x" ⟨1, 14⟩, .constantValue 1]]))]

/-- C2 counterexample: after full code generation of the well-formed program
`func main() { x = 1; }`, `nextLocalVariableAddress` is 8, not 0. -/
theorem nextLocalVariableAddress_after_codegen_ne_zero :
    (codegenProgram mainAssignProgram).map
        (fun st => st.symbolTable.nextLocalVariableAddress) = .ok 8 ∧
      (codegenProgram mainAssignProgram).map
        (fun st => st.symbolTable.nextLocalVariableAddress) ≠ .ok 0 := by
  refine ⟨rfl, fun h => ?_⟩
  rw [show (codegenProgram mainAssignProgram).map
      (fun st => st.symbolTable.nextLocalVariableAddress) = Except.ok 8 from rfl] at h
  injection h with h2
  omega

/-- C2 amended: on every block exit `nextLocalVariableAddress` is restored to
the maximum variable address in the newly exposed scope plus 8, where an empty
newly exposed scope (the outermost one included) counts as maximum 0 — so the
restored value is then 8, never 0. -/
theorem leaveBlock_restores_max_plus_eight
    (st : SymbolTable) (scope : Scope) (rest : List Scope)
    (h : st.scopes = scope :: rest) :
    st.leaveBlock.scopes = rest ∧
    st.leaveBlock.nextLocalVariableAddress =
      (rest.headD []).foldl (fun m p => max m p.2.address) 0 + VARIABLE_SIZE_IN_BYTES ∧
    (rest.headD [] = [] →
      st.leaveBlock.nextLocalVariableAddress = VARIABLE_SIZE_IN_BYTES) := by
  obtain ⟨scopes, next, fns⟩ := st
  simp only at h
  subst h
  refine ⟨rfl, rfl, fun hEmpty => ?_⟩
  show (rest.headD []).foldl (fun m p => max m p.2.address) 0 + VARIABLE_SIZE_IN_BYTES = _
  rw [hEmpty]
  rfl

/-- C2 witness: the amended theorem applied to a concrete two-scope table whose pop exposes the empty outermost scope. -/
theorem leaveBlock_witness :
    (SymbolTable.leaveBlock ⟨[[("x", ⟨0, ⟨1, 1⟩⟩)], []], 8, []⟩).scopes = [[]] ∧
    (SymbolTable.leaveBlock ⟨[[("x", ⟨0, ⟨1, 1⟩⟩)], []], 8, []⟩).nextLocalVariableAddress = 8 := by
  have h := leaveBlock_restores_max_plus_eight ⟨[[("x", ⟨0, ⟨1, 1⟩⟩)], []], 8, []⟩
    [("x", ⟨0, ⟨1, 1⟩⟩)] [[]] rfl
  exact ⟨h.1, h.2.2 rfl⟩

/-- C7: code generation of a call raises a syntax error when the callee is not
in the function table, and a syntax error when the argument count differs from
the declared one; the built-ins `read` (0 args, number), `print` (1 arg,
void) and `sqrt` (1 arg, number) are pre-registered. -/
theorem functionCall_errors_and_builtins :
    (∀ (name : String) (o : TokenOrigin) (args : List Ast) (st : CGState),
      st.symbolTable.hasFunction name = false →
      visit (.functionCallNode name o args) st =
        .error (.SyntaxError (some o) "Undeclared function")) ∧
    (∀ (name : String) (o : TokenOrigin) (args : List Ast) (st : CGState)
        (sym : FunctionSymbol),
      st.symbolTable.getFunctionByName name = .ok sym →
      args.length ≠ sym.argumentsNumber →
      visit (.functionCallNode name o args) st =
        .error (.SyntaxError (some o) "Invalid arguments number")) ∧
    SymbolTable.initial.getFunctionByName "read" =
      .ok (FunctionSymbol.internal "IN" .DOUBLE 0) ∧
    SymbolTable.initial.getFunctionByName "print" =
      .ok (FunctionSymbol.internal "OUT" .VOID 1) ∧
    SymbolTable.initial.getFunctionByName "sqrt" =
      .ok (FunctionSymbol.internal "SQRT" .DOUBLE 1) := by
  refine ⟨?_, ?_, rfl, rfl, rfl⟩
  · intro name o args st h
    simp [visit, h]
  · intro name o args st sym hsym hlen
    have hhas : st.symbolTable.hasFunction name = true := by
      unfold SymbolTable.getFunctionByName at hsym
      unfold SymbolTable.hasFunction
      rcases hfind : (st.symbolTable.functions.find? (fun p => p.1 = name)) with _ | p <;>
        simp [hfind] at hsym ⊢
    simp only [visit, hhas, Bool.not_true, Bool.false_eq_true, if_false, hsym]
    simp [Bind.bind, Except.bind, hlen]

/-- C7 witness: the theorem applied to an undeclared callee and to a zero-argument call of the one-argument built-in `print`. -/
theorem functionCall_errors_witness :
    visit (.functionCallNode "foo" ⟨1, 1⟩ []) ⟨SymbolTable.initial, [], 0⟩ =
      .error (.SyntaxError (some ⟨1, 1⟩) "Undeclared function") ∧
    visit (.functionCallNode "print" ⟨2, 1⟩ []) ⟨SymbolTable.initial, [], 0⟩ =
      .error (.SyntaxError (some ⟨2, 1⟩) "Invalid arguments number") :=
  ⟨functionCall_errors_and_builtins.1 "foo" ⟨1, 1⟩ [] ⟨SymbolTable.initial, [], 0⟩ rfl,
   functionCall_errors_and_builtins.2.1 "print" ⟨2, 1⟩ [] ⟨SymbolTable.initial, [], 0⟩
     (FunctionSymbol.internal "OUT" .VOID 1) rfl (by decide)⟩

/-- C8: adding a variable whose name already exists in the innermost scope
raises a redefinition error carrying both the new and the original
declaration origins, while declaring the same name after entering a nested
scope succeeds and shadows the outer variable for lookups, which scan scopes
from innermost to outermost. -/
theorem addVariable_redefinition_and_shadowing :
    (∀ (st : SymbolTable) (name : String) (o : TokenOrigin) (sym : VariableSymbol),
      lookupVar st.front name = some sym →
      st.addVariable name o = .error (.RedefinitionError name o sym.originPos)) ∧
    (∀ (st : SymbolTable) (name : String) (o : TokenOrigin),
      ∃ sym st2,
        st.enterBlock.addVariable name o = .ok (sym, st2) ∧
        sym.address = st.nextLocalVariableAddress ∧
        sym.originPos = o ∧
        st2.getVariableByName name = .ok sym) := by
  constructor
  · intro st name o sym h
    have hfront : st.front = st.scopes.headD [] := rfl
    rcases hsc : st.scopes with _ | ⟨s, rest⟩
    · rw [hfront, hsc] at h
      simp [lookupVar] at h
    · rw [hfront, hsc] at h
      simp only [List.headD_cons] at h
      unfold SymbolTable.addVariable
      rw [hfront, hsc]
      simp only [List.headD_cons, h, Option.isSome_some, if_true]
      simp [List.findSome?_cons, h]
  · intro st name o
    refine ⟨⟨st.nextLocalVariableAddress, o⟩,
      ⟨[(name, ⟨st.nextLocalVariableAddress, o⟩)] :: st.scopes,
        st.nextLocalVariableAddress + VARIABLE_SIZE_IN_BYTES, st.functions⟩, ?_, rfl, rfl, ?_⟩
    · unfold SymbolTable.addVariable SymbolTable.front SymbolTable.enterBlock
      simp [lookupVar]
    · simp [SymbolTable.getVariableByName, lookupVar, List.findSome?_cons, List.find?]

/-- C8 witness: the theorem applied to a table with `x` declared: re-adding errors, adding after a block entry shadows. -/
theorem addVariable_witness :
    (SymbolTable.addVariable
        ⟨[[("x", ⟨0, ⟨1, 1⟩⟩)]], 8, []⟩ "x" ⟨2, 1⟩ =
      .error (.RedefinitionError "x" ⟨2, 1⟩ ⟨1, 1⟩)) ∧
    (∃ sym st2,
      (SymbolTable.enterBlock ⟨[[("x", ⟨0, ⟨1, 1⟩⟩)]], 8, []⟩).addVariable "x" ⟨3, 1⟩ =
        .ok (sym, st2) ∧
      sym.address = 8 ∧ sym.originPos = ⟨3, 1⟩ ∧
      st2.getVariableByName "x" = .ok sym) :=
  ⟨addVariable_redefinition_and_shadowing.1 ⟨[[("x", ⟨0, ⟨1, 1⟩⟩)]], 8, []⟩ "x" ⟨2, 1⟩
      ⟨0, ⟨1, 1⟩⟩ rfl,
   addVariable_redefinition_and_shadowing.2 ⟨[[("x", ⟨0, ⟨1, 1⟩⟩)]], 8, []⟩ "x" ⟨3, 1⟩⟩

/-- The "yields a value" predicate exactly as the claim states it: a number, a
variable, a non-assignment operator node, or a call to a non-void function. -/
def yieldsValue (node : Ast) (tbl : SymbolTable) : Prop :=
  (∃ v, node = .constantValue v) ∨
  (∃ n o, node = .variableNode n o) ∨
  (∃ op cs, node = .operatorNode op cs ∧ op ≠ OperatorType.ASSIGNMENT) ∨
  (∃ f o args sym, node = .functionCallNode f o args ∧
    tbl.getFunctionByName f = .ok sym ∧ sym.isVoid = false)

/-- C4: for every `return E`, the generator evaluates `E`; when `E` yields a
value it emits `POP BX`, the epilog `POP AX`, `PUSH BX` and `RET`, otherwise
the epilog and `RET`; and `E` yields a value exactly when it is a number, a
variable, a non-assignment operator node, or a call to a non-void function. -/
theorem return_lowering (E : Ast) (st : CGState) (b : Bool) (st1 : CGState)
    (hb : returnsNonVoidM E st.symbolTable = .ok b)
    (hE : visit E st = .ok st1) :
    visit (.returnStatementNode E) st =
      .ok (st1.emits
        ((if b then [.popReg .BX] else []) ++ [.popReg .AX] ++
          (if b then [.pushReg .BX] else []) ++ [.ret])) ∧
    (b = true ↔ yieldsValue E st.symbolTable) := by
  constructor
  · simp only [visit, Bind.bind, Except.bind, hb, hE]
    cases b <;> simp [CGState.emit, CGState.emits]
  · cases E with
    | constantValue v =>
      simp only [returnsNonVoidM, Except.ok.injEq] at hb
      simp [yieldsValue, ← hb]
    | variableNode n o =>
      simp only [returnsNonVoidM, Except.ok.injEq] at hb
      simp [yieldsValue, ← hb]
    | operatorNode op cs =>
      simp only [returnsNonVoidM, Except.ok.injEq] at hb
      subst hb
      simp [yieldsValue]
    | functionCallNode f o args =>
      simp only [returnsNonVoidM, Bind.bind, Except.bind] at hb
      cases hget : st.symbolTable.getFunctionByName f with
      | error e => rw [hget] at hb; exact absurd hb (by simp)
      | ok sym =>
        rw [hget] at hb
        simp only [Except.ok.injEq] at hb
        subst hb
        simp only [yieldsValue, Bool.not_eq_true', yieldsValue]
        constructor
        · intro hv
          refine Or.inr (Or.inr (Or.inr ⟨f, o, args, sym, rfl, hget, ?_⟩))
          simpa using hv
        · rintro (⟨v, hv⟩ | ⟨n, o2, hv⟩ | ⟨op, cs, hv, _⟩ | ⟨f2, o2, args2, sym2, hv, hg2, hvoid⟩) <;>
            try cases hv
          rw [hget] at hg2
          injection hg2 with hg2
          subst hg2
          simpa using hvoid
    | _ =>
      all_goals
        simp only [returnsNonVoidM, Except.ok.injEq] at hb
      all_goals subst hb
      all_goals simp [yieldsValue]

/-- C4 witness: the theorem applied to `return 5` in the initial state. -/
theorem return_lowering_witness :
    visit (.returnStatementNode (.constantValue 5)) ⟨SymbolTable.initial, [], 0⟩ =
      .ok ⟨SymbolTable.initial,
        [.push 5, .popReg .BX, .popReg .AX, .pushReg .BX, .ret], 0⟩ ∧
    (true = true ↔ yieldsValue (.constantValue 5) SymbolTable.initial) := by
  have h := return_lowering (.constantValue 5) ⟨SymbolTable.initial, [], 0⟩ true
    ⟨SymbolTable.initial, [.push 5], 0⟩ rfl rfl
  constructor
  · rw [h.1]
    rfl
  · exact h.2

/-- C5: for every `If(cond, body)` node the generator evaluates the two
operands of `cond`, emits the comparison jump for the negated operator to a
fresh else-label, lowers the body and then places the else-label; the negation
swaps `<` with `>=`, `<=` with `>` and `==` with `!=`, and the mnemonics are
JMPL, JMPLE, JMPG, JMPGE, JMPE, JMPNE respectively. -/
theorem if_lowering (op : ComparisonOperatorType) (cl cr body : Ast)
    (st st1 st2 st3 : CGState)
    (h1 : visit cl (st.freshLabel).2 = .ok st1)
    (h2 : visit cr st1 = .ok st2)
    (h3 : visit body (st2.emit (condJump op (st.freshLabel).1 true)) = .ok st3) :
    visit (.ifNode op cl cr body) st =
      .ok (st3.emit (.labelDef (st.freshLabel).1)) ∧
    condJump op (st.freshLabel).1 true =
      compJumpInstr (negateCompOp op) (st.freshLabel).1 ∧
    (negateCompOp .LESS = .GREATER_OR_EQUAL ∧
      negateCompOp .GREATER_OR_EQUAL = .LESS ∧
      negateCompOp .LESS_OR_EQUAL = .GREATER ∧
      negateCompOp .GREATER = .LESS_OR_EQUAL ∧
      negateCompOp .EQUAL = .NOT_EQUAL ∧
      negateCompOp .NOT_EQUAL = .EQUAL) ∧
    (∀ l : String,
      compJumpInstr .LESS l = .jmpl l ∧
      compJumpInstr .LESS_OR_EQUAL l = .jmple l ∧
      compJumpInstr .GREATER l = .jmpg l ∧
      compJumpInstr .GREATER_OR_EQUAL l = .jmpge l ∧
      compJumpInstr .EQUAL l = .jmpe l ∧
      compJumpInstr .NOT_EQUAL l = .jmpne l) := by
  refine ⟨?_, rfl, ⟨rfl, rfl, rfl, rfl, rfl, rfl⟩, fun l => ⟨rfl, rfl, rfl, rfl, rfl, rfl⟩⟩
  simp only [visit, Bind.bind, Except.bind, h1, h2, h3]

/-- C5 witness: the theorem applied to `if (1 < 2) {}`, producing a `JMPGE` to the fresh label `L0`. -/
theorem if_lowering_witness :
    visit (.ifNode .LESS (.constantValue 1) (.constantValue 2)
        (.statementsNode [])) ⟨SymbolTable.initial, [], 0⟩ =
      .ok ⟨SymbolTable.initial,
        [.push 1, .push 2, .jmpge "L0", .labelDef "L0"], 1⟩ := by
  have h := if_lowering .LESS (.constantValue 1) (.constantValue 2)
    (.statementsNode []) ⟨SymbolTable.initial, [], 0⟩
    ⟨SymbolTable.initial, [.push 1], 1⟩
    ⟨SymbolTable.initial, [.push 1, .push 2], 1⟩
    ⟨SymbolTable.initial, [.push 1, .push 2, .jmpge "L0"], 1⟩
    rfl rfl rfl
  rw [h.1]
  rfl

/-- Sequential (source-order) visiting of a list of expressions; used to state
the reverse-order property of `visitArgumentsListNode`. -/
def visitSeq : List Ast → CGState → Except CompileError CGState
  | [], st => .ok st
  | child :: rest, st => do
    let st1 ← visit child st
    visitSeq rest st1

theorem visitSeq_append (l1 l2 : List Ast) (st : CGState) :
    visitSeq (l1 ++ l2) st = (do
      let st1 ← visitSeq l1 st
      visitSeq l2 st1) := by
  induction l1 generalizing st with
  | nil => simp [visitSeq, Bind.bind, Except.bind]
  | cons c rest ih =>
    simp only [List.cons_append, visitSeq, Bind.bind, Except.bind]
    cases visit c st with
    | error e => rfl
    | ok st1 => exact ih st1

theorem visitSeq_singleton (c : Ast) (st : CGState) :
    visitSeq [c] st = visit c st := by
  simp only [visitSeq, Bind.bind, Except.bind]
  cases visit c st <;> rfl

/-- C6: for every function call the generator emits the argument expressions
in reverse source order (last argument first), then the callee's internal
mnemonic when the callee is a built-in, or `CALL label` otherwise. -/
theorem call_reverse_args_and_mnemonic :
    (∀ (args : List Ast) (st : CGState),
      visitArgumentsList args st = visitSeq args.reverse st) ∧
    (∀ (name : String) (o : TokenOrigin) (args : List Ast) (st : CGState)
        (sym : FunctionSymbol) (st1 : CGState),
      st.symbolTable.hasFunction name = true →
      st.symbolTable.getFunctionByName name = .ok sym →
      args.length = sym.argumentsNumber →
      visitArgumentsList args st = .ok st1 →
      visit (.functionCallNode name o args) st = .ok (st1.emit (callInstr sym)) ∧
      callInstr sym = (if sym.isInternal then .internalOp (sym.internalName.getD "")
        else .callLabel (sym.label.getD ""))) := by
  constructor
  · intro args
    induction args with
    | nil => intro st; rfl
    | cons c rest ih =>
      intro st
      simp only [visitArgumentsList, List.reverse_cons, visitSeq_append, ih]
      cases h : visitSeq rest.reverse st with
      | error e => simp [Bind.bind, Except.bind, h]
      | ok st1 => simp [Bind.bind, Except.bind, h, visitSeq_singleton]
  · intro name o args st sym st1 hhas hget hlen hargs
    refine ⟨?_, rfl⟩
    simp only [visit, hhas, Bool.not_true, Bool.false_eq_true, if_false,
      Bind.bind, Except.bind, hget, hlen, if_pos, hargs]
    simp

/-- C6 witness: the theorem applied to a two-argument list and to the built-in call `print(7)`, which lowers to `OUT`. -/
theorem call_reverse_args_witness :
    visitArgumentsList [Ast.constantValue 1, Ast.constantValue 2]
        ⟨SymbolTable.initial, [], 0⟩ =
      visitSeq [Ast.constantValue 2, Ast.constantValue 1]
        ⟨SymbolTable.initial, [], 0⟩ ∧
    visit (.functionCallNode "print" ⟨1, 1⟩ [Ast.constantValue 7])
        ⟨SymbolTable.initial, [], 0⟩ =
      .ok ⟨SymbolTable.initial, [.push 7, .internalOp "OUT"], 0⟩ := by
  constructor
  · exact call_reverse_args_and_mnemonic.1 [Ast.constantValue 1, Ast.constantValue 2]
      ⟨SymbolTable.initial, [], 0⟩
  · have h := (call_reverse_args_and_mnemonic.2 "print" ⟨1, 1⟩ [Ast.constantValue 7]
      ⟨SymbolTable.initial, [], 0⟩ (FunctionSymbol.internal "OUT" .VOID 1)
      ⟨SymbolTable.initial, [.push 7], 0⟩ rfl rfl rfl rfl).1
    rw [h]
    rfl

theorem SymbolTable.addFunction_ok {st : SymbolTable} {n : String} {ty : Ty}
    {k : Nat} {o : TokenOrigin} {r : FunctionSymbol × SymbolTable}
    (h : st.addFunction n ty k o = .ok r) :
    r.1 = FunctionSymbol.user n ty k o := by
  unfold SymbolTable.addFunction at h
  by_cases hc : st.hasFunction n
  · rw [if_pos hc] at h
    split at h <;> simp at h
  · rw [if_neg hc] at h
    simp only [Except.ok.injEq] at h
    rw [← h]

/-- C10: every user-defined function is registered with return kind number
(never void), so the only void function is the built-in `print`; the generator
appends the implicit `PUSH 0`/`RET` at the end of every function definition,
and a statement-level call to a function with number return kind is followed
by a draining `POP`. -/
theorem user_functions_registered_nonvoid :
    (∀ (name : String) (o : TokenOrigin) (params : List (String × TokenOrigin))
        (body : Ast) (st st' : CGState),
      visit (.functionDefinitionNode name o params body) st = .ok st' →
      (∃ tbl1, st.symbolTable.addFunction name .DOUBLE params.length o =
        .ok (FunctionSymbol.user name .DOUBLE params.length o, tbl1)) ∧
      (FunctionSymbol.user name .DOUBLE params.length o).isVoid = false ∧
      ∃ pre, st'.output = pre ++ [.push 0, .ret]) ∧
    (∀ p ∈ SymbolTable.initial.functions, p.2.isVoid = true → p.1 = "print") ∧
    (∀ (child : Ast) (rest : List Ast) (st st1 : CGState),
      visit child st = .ok st1 →
      returnsNonVoidM child st1.symbolTable = .ok true →
      visitStatementsList (child :: rest) st =
        visitStatementsList rest (st1.emit .pop)) ∧
    (∀ (f : String) (o : TokenOrigin) (args : List Ast) (tbl : SymbolTable)
        (sym : FunctionSymbol),
      tbl.getFunctionByName f = .ok sym → sym.returnType = .DOUBLE →
      returnsNonVoidM (.functionCallNode f o args) tbl = .ok true) := by
  refine ⟨?_, by decide, ?_, ?_⟩
  · intro name o params body st st' h
    simp only [visit, Bind.bind, Except.bind] at h
    split at h
    · exact absurd h (by simp)
    · rename_i r haf
      have hshape := SymbolTable.addFunction_ok haf
      refine ⟨⟨r.2, by rw [haf, ← hshape]⟩, rfl, ?_⟩
      split at h
      · exact absurd h (by simp)
      · rename_i st4 hvp
        split at h
        all_goals try exact absurd h (by simp)
        split at h
        · exact absurd h (by simp)
        · rename_i st5 hv
          split at h
          · rename_i hvoid
            rw [hshape] at hvoid
            simp [FunctionSymbol.user, FunctionSymbol.isVoid] at hvoid
          · simp only [Except.ok.injEq] at h
            rw [← h]
            exact ⟨st5.output ++ [.popReg .AX], by simp [CGState.emit]⟩
  · intro child rest st st1 h hrnv
    simp only [visitStatementsList, Bind.bind, Except.bind, h, hrnv, if_pos]
  · intro f o args tbl sym hget hty
    simp only [returnsNonVoidM, Bind.bind, Except.bind, hget]
    simp [FunctionSymbol.isVoid, hty]

/-- C10 witness: the theorem applied to a concrete parameterless function definition and to a call of the built-in `read`. -/
theorem user_functions_registered_witness :
    (∃ tbl1, SymbolTable.initial.addFunction "f" .DOUBLE 0 ⟨1, 1⟩ =
      .ok (FunctionSymbol.user "f" .DOUBLE 0 ⟨1, 1⟩, tbl1)) ∧
    (∃ pre,
      ([Instr.labelDef "f", .pushReg .AX, .popReg .AX, .push 0, .ret] : List Instr) =
        pre ++ [.push 0, .ret]) ∧
    returnsNonVoidM (.functionCallNode "read" ⟨1, 1⟩ []) SymbolTable.initial = .ok true := by
  have h := user_functions_registered_nonvoid.1 "f" ⟨1, 1⟩ []
    (.blockNode (.statementsNode [])) ⟨SymbolTable.initial, [], 0⟩
    ⟨⟨[[]], 8,
      ("f", FunctionSymbol.user "f" .DOUBLE 0 ⟨1, 1⟩) :: SymbolTable.initial.functions⟩,
      [Instr.labelDef "f", .pushReg .AX, .popReg .AX, .push 0, .ret], 1⟩ rfl
  refine ⟨h.1, h.2.2, ?_⟩
  exact user_functions_registered_nonvoid.2.2.2 "read" ⟨1, 1⟩ [] SymbolTable.initial
    (FunctionSymbol.internal "IN" .DOUBLE 0) rfl rfl

/-! ### Optimizer invariants -/

theorem ONode.eta (n : ONode) : ONode.mk n.tok n.children = n := by
  cases n
  rfl

/-- Strong induction on the size of a node. -/
theorem ONode.strongInd {P : ONode → Prop}
    (h : ∀ n, (∀ m, sizeOf m < sizeOf n → P m) → P n) (n : ONode) : P n :=
  h n (fun m _ => ONode.strongInd h m)
termination_by sizeOf n
decreasing_by assumption

/-- Source `p` holds at every node of the tree. -/
def AllNodes (p : ONode → Prop) (n : ONode) : Prop :=
  p n ∧ ∀ c ∈ n.children, AllNodes p c
termination_by sizeOf n
decreasing_by exact ONode.sizeOf_lt_of_mem_children (by assumption)

theorem AllNodes_def (p : ONode → Prop) (n : ONode) :
    AllNodes p n ↔ (p n ∧ ∀ c ∈ n.children, AllNodes p c) := by
  rw [AllNodes]

theorem AllNodes.root {p : ONode → Prop} {n : ONode} (h : AllNodes p n) : p n :=
  ((AllNodes_def p n).mp h).1

theorem AllNodes.child {p : ONode → Prop} {n c : ONode} (h : AllNodes p n)
    (hc : c ∈ n.children) : AllNodes p c :=
  ((AllNodes_def p n).mp h).2 c hc

theorem AllNodes.intro {p : ONode → Prop} {n : ONode} (hr : p n)
    (hc : ∀ c ∈ n.children, AllNodes p c) : AllNodes p n :=
  (AllNodes_def p n).mpr ⟨hr, hc⟩

/-- A token that is not a numeric constant. -/
def nonConst (tok : OToken) : Prop := ∀ v, tok ≠ .constant v

/-- Rewrite fires at the root for the unary-addition strip. -/
def uplusRedex (n : ONode) : Bool :=
  match n.children with
  | [_] => decide (n.tok = .operatorTok .UNARY_ADDITION)
  | _ => false

/-- Rewrite fires at the root for the double-negation collapse. -/
def negRedex (n : ONode) : Bool :=
  match n.children with
  | [c] =>
    decide (n.tok = .operatorTok .ARITHMETIC_NEGATION) &&
      (match c.children with
       | [_] => decide (c.tok = .operatorTok .ARITHMETIC_NEGATION)
       | _ => false)
  | _ => false

/-- Rewrite fires at the root for the trivial multiplication. -/
def multRedex (n : ONode) : Bool :=
  match n.children with
  | [l, r] =>
    decide (n.tok = .operatorTok .MULTIPLICATION) &&
      (isZeroConstant l.tok || isOneConstant r.tok ||
        isZeroConstant r.tok || isOneConstant l.tok)
  | _ => false

/-- Rewrite fires at the root for the trivial addition. -/
def addRedex (n : ONode) : Bool :=
  match n.children with
  | [l, r] =>
    decide (n.tok = .operatorTok .ADDITION) &&
      (isZeroConstant l.tok || isZeroConstant r.tok)
  | _ => false

/-- The compressor's view of a single constant operand. -/
def foldArg1 (tok t : OToken) : Bool :=
  match t with
  | .constant v => (tokenCalculate tok [v]).isSome
  | _ => false

/-- The compressor's view of two constant operands. -/
def foldArg2 (tok l r : OToken) : Bool :=
  match l, r with
  | .constant a, .constant b => (tokenCalculate tok [a, b]).isSome
  | _, _ => false

/-- The constant compressor fires at the root. -/
def foldRedex (n : ONode) : Bool :=
  if n.tok = .statements ∨ n.tok = .blockTok then false
  else
    match n.children with
    | [c] => foldArg1 n.tok c.tok
    | [l, r] => foldArg2 n.tok l.tok r.tok
    | _ => false

/-- No trivial-operations rewrite fires at the root. -/
def trivNormalRoot (n : ONode) : Prop :=
  multRedex n = false ∧ addRedex n = false ∧ foldRedex n = false

/-- No unary-addition redex anywhere. -/
def NoUPlus : ONode → Prop := AllNodes (fun m => uplusRedex m = false)

/-- No double-negation redex anywhere. -/
def NoNegNeg : ONode → Prop := AllNodes (fun m => negRedex m = false)

/-- No trivial-operations redex anywhere. -/
def TrivNormal : ONode → Prop := AllNodes trivNormalRoot

/-! Correspondence between the redex predicates and the rewrite loops. -/

theorem uplusStrip_of_not {n : ONode} (h : uplusRedex n = false) :
    uplusStrip n = n := by
  rw [uplusStrip.eq_def]
  split
  · rename_i c
    simp [uplusRedex, ONode.children, ONode.tok] at h
  · rfl

theorem uplusRedex_uplusStrip (n : ONode) : uplusRedex (uplusStrip n) = false := by
  induction n using uplusStrip.induct with
  | case1 c ih => rw [uplusStrip]; exact ih
  | case2 n h =>
    rw [uplusStrip.eq_def]
    split
    · rename_i c; exact absurd rfl (h c)
    · rw [uplusRedex.eq_def]
      split
      · rename_i c hc
        obtain ⟨tok, cs⟩ := n
        simp only [ONode.children] at hc
        subst hc
        simp only [ONode.tok]
        by_cases htok : tok = .operatorTok .UNARY_ADDITION
        · subst htok; exact absurd rfl (h c)
        · simp [htok]
      · rfl

theorem negCollapse_of_not {n : ONode} (h : negRedex n = false) :
    negCollapse n = n := by
  rw [negCollapse.eq_def]
  split
  · rename_i x
    simp [negRedex, ONode.children, ONode.tok] at h
  · rfl

theorem negRedex_negCollapse (n : ONode) : negRedex (negCollapse n) = false := by
  induction n using negCollapse.induct with
  | case1 x ih => rw [negCollapse]; exact ih
  | case2 n h =>
    rw [negCollapse.eq_def]
    split
    · rename_i x; exact absurd rfl (h x)
    · rw [negRedex.eq_def]
      split
      · rename_i c hc
        obtain ⟨tok, cs⟩ := n
        simp only [ONode.children] at hc
        subst hc
        simp only [ONode.tok]
        by_cases htok : tok = .operatorTok .ARITHMETIC_NEGATION
        · subst htok
          rw [Bool.and_eq_false_iff]
          right
          split
          · rename_i x hx
            obtain ⟨ctok, ccs⟩ := c
            simp only [ONode.children] at hx
            subst hx
            simp only [ONode.tok]
            by_cases hctok : ctok = .operatorTok .ARITHMETIC_NEGATION
            · subst hctok; exact absurd rfl (h x)
            · simp [hctok]
          · rfl
        · simp [htok]
      · rfl

theorem trivMultCur_of_not {n : ONode} (h : multRedex n = false) :
    trivMultCur n = n := by
  rw [trivMultCur.eq_def]
  split
  · rename_i l r
    simp [multRedex, ONode.children] at h
    have h2 := h rfl
    simp [h2.1.1.1, h2.1.1.2, h2.1.2, h2.2]
  · rfl

theorem trivAddCur_of_not {n : ONode} (h : addRedex n = false) :
    trivAddCur n = n := by
  rw [trivAddCur.eq_def]
  split
  · rename_i l r
    simp [addRedex, ONode.children] at h
    have h2 := h rfl
    simp [h2.1, h2.2]
  · rfl

theorem compressorCur_cases (n : ONode) :
    (foldRedex n = false ∧ compressorCur n = n) ∨
    (foldRedex n = true ∧ ∃ v, compressorCur n = .mk (.constant v) []) := by
  rw [compressorCur.eq_def]
  split
  · left; exact ⟨by simp [foldRedex, ONode.tok], rfl⟩
  · left; exact ⟨by simp [foldRedex, ONode.tok], rfl⟩
  · rename_i x tok hst hbl
    left
    refine ⟨?_, rfl⟩
    simp only [foldRedex, ONode.children]
    split <;> rfl
  · rename_i x tok c hst hbl
    obtain ⟨ctok, ccs⟩ := c
    rcases ctok with v | op | nm | cop | _ | _
    case constant =>
      rcases hcalc : tokenCalculate tok [v] with _ | result
      · left
        refine ⟨?_, by simp only [ONode.tok, hcalc]⟩
        simp only [foldRedex, foldArg1, ONode.children, ONode.tok, hcalc,
          Option.isSome_none]
        split <;> rfl
      · right
        refine ⟨?_, result, by simp only [ONode.tok, hcalc]⟩
        have hs : ¬(tok = OToken.statements ∨ tok = OToken.blockTok) := by
          rintro (rfl | rfl)
          · exact hst rfl
          · exact hbl rfl
        simp only [foldRedex, foldArg1, ONode.children, ONode.tok, hcalc,
          Option.isSome_some, if_neg hs]
    all_goals
      left
      refine ⟨?_, by simp only [ONode.tok]⟩
      simp only [foldRedex, foldArg1, ONode.children, ONode.tok]
      split <;> rfl
  · rename_i x tok l r hst hbl
    obtain ⟨ltok, lcs⟩ := l
    obtain ⟨rtok, rcs⟩ := r
    rcases ltok with v | op | nm | cop | _ | _ <;>
      rcases rtok with w | op2 | nm2 | cop2 | _ | _
    case constant.constant =>
      rcases hcalc : tokenCalculate tok [v, w] with _ | result
      · left
        refine ⟨?_, by simp only [ONode.tok, hcalc]⟩
        simp only [foldRedex, foldArg2, ONode.children, ONode.tok, hcalc,
          Option.isSome_none]
        split <;> rfl
      · right
        refine ⟨?_, result, by simp only [ONode.tok, hcalc]⟩
        have hs : ¬(tok = OToken.statements ∨ tok = OToken.blockTok) := by
          rintro (rfl | rfl)
          · exact hst rfl
          · exact hbl rfl
        simp only [foldRedex, foldArg2, ONode.children, ONode.tok, hcalc,
          Option.isSome_some, if_neg hs]
    all_goals
      left
      refine ⟨?_, by simp only [ONode.tok]⟩
      simp only [foldRedex, foldArg2, ONode.children, ONode.tok]
      split <;> rfl
  · rename_i n2 hst hbl h1 h2 h3
    left
    refine ⟨?_, rfl⟩
    rw [foldRedex]
    split
    · rfl
    · split
      · rename_i c hc
        exact absurd (ONode.eta n ▸ congrArg (ONode.mk n.tok) hc) (h2 n.tok c)
      · rename_i l r hlr
        exact absurd (ONode.eta n ▸ congrArg (ONode.mk n.tok) hlr) (h3 n.tok l r)
      · rfl

theorem compressorCur_of_not {n : ONode} (h : foldRedex n = false) :
    compressorCur n = n := by
  rcases compressorCur_cases n with ⟨_, he⟩ | ⟨ht, _⟩
  · exact he
  · rw [h] at ht
    cases ht

/-! Each root loop returns the node itself or one of its descendants, so any
everywhere-predicate survives it; the compressor may also produce a fresh
constant leaf. -/

theorem AllNodes_uplusStrip {p : ONode → Prop} {n : ONode} (h : AllNodes p n) :
    AllNodes p (uplusStrip n) := by
  induction n using uplusStrip.induct with
  | case1 c ih =>
    rw [uplusStrip]
    exact ih (h.child (by simp [ONode.children]))
  | case2 n hn =>
    rw [uplusStrip.eq_def]
    split
    · rename_i c; exact absurd rfl (hn c)
    · exact h

theorem AllNodes_negCollapse {p : ONode → Prop} {n : ONode} (h : AllNodes p n) :
    AllNodes p (negCollapse n) := by
  induction n using negCollapse.induct with
  | case1 x ih =>
    rw [negCollapse]
    have h1 : AllNodes p (ONode.mk (OToken.operatorTok .ARITHMETIC_NEGATION) [x]) :=
      h.child (by simp [ONode.children])
    exact ih (h1.child (by simp [ONode.children]))
  | case2 n hn =>
    rw [negCollapse.eq_def]
    split
    · rename_i x; exact absurd rfl (hn x)
    · exact h

theorem AllNodes_trivMultCur {p : ONode → Prop} {n : ONode} (h : AllNodes p n) :
    AllNodes p (trivMultCur n) := by
  induction n using trivMultCur.induct with
  | case1 l r hcond ih =>
    rw [trivMultCur, if_pos hcond]
    exact ih (h.child (by simp [ONode.children]))
  | case2 l r hcond1 hcond2 ih =>
    rw [trivMultCur, if_neg hcond1, if_pos hcond2]
    exact ih (h.child (by simp [ONode.children]))
  | case3 l r hcond1 hcond2 =>
    rw [trivMultCur, if_neg hcond1, if_neg hcond2]
    exact h
  | case4 n hn =>
    rw [trivMultCur.eq_def]
    split
    · rename_i l r; exact absurd rfl (hn l r)
    · exact h

theorem AllNodes_trivAddCur {p : ONode → Prop} {n : ONode} (h : AllNodes p n) :
    AllNodes p (trivAddCur n) := by
  induction n using trivAddCur.induct with
  | case1 l r hcond ih =>
    rw [trivAddCur, if_pos hcond]
    exact ih (h.child (by simp [ONode.children]))
  | case2 l r hcond1 hcond2 ih =>
    rw [trivAddCur, if_neg hcond1, if_pos hcond2]
    exact ih (h.child (by simp [ONode.children]))
  | case3 l r hcond1 hcond2 =>
    rw [trivAddCur, if_neg hcond1, if_neg hcond2]
    exact h
  | case4 n hn =>
    rw [trivAddCur.eq_def]
    split
    · rename_i l r; exact absurd rfl (hn l r)
    · exact h

theorem AllNodes_compositeCur {p : ONode → Prop} {n : ONode}
    (hconst : ∀ v, p (.mk (.constant v) [])) (h : AllNodes p n) :
    AllNodes p (compositeCur n) := by
  unfold compositeCur
  have h2 := AllNodes_trivAddCur (AllNodes_trivMultCur h)
  rcases compressorCur_cases (trivAddCur (trivMultCur n)) with ⟨_, he⟩ | ⟨_, v, he⟩ <;>
    rw [he]
  · exact h2
  · exact AllNodes.intro (hconst v) (by simp [ONode.children])

theorem uplusPass_def (n : ONode) :
    uplusPass n = .mk (uplusStrip n).tok ((uplusStrip n).children.map uplusPass) := by
  rw [uplusPass]
  simp [List.attach_map_val]

theorem negPass_def (n : ONode) :
    negPass n = .mk (negCollapse n).tok ((negCollapse n).children.map negPass) := by
  rw [negPass]
  simp [List.attach_map_val]

theorem trivPass_def (n : ONode) :
    trivPass n = compositeCur (.mk n.tok (n.children.map trivPass)) := by
  rw [trivPass]
  simp [List.attach_map_val]

theorem uplusRedex_mk_map (tok : OToken) (cs : List ONode) (f : ONode → ONode) :
    uplusRedex (.mk tok (cs.map f)) = uplusRedex (.mk tok cs) := by
  rcases cs with _ | ⟨a, _ | ⟨b, t⟩⟩ <;> rfl

/-- C3 intermediate: the unary-plus pass leaves no unary-plus redex. -/
theorem noUPlus_uplusPass (n : ONode) : NoUPlus (uplusPass n) := by
  induction n using ONode.strongInd with
  | _ n ih =>
    rw [uplusPass_def]
    refine AllNodes.intro ?_ ?_
    · show uplusRedex _ = false
      rw [uplusRedex_mk_map, ONode.eta]
      exact uplusRedex_uplusStrip n
    · intro c hc
      simp only [ONode.children] at hc
      rw [List.mem_map] at hc
      obtain ⟨c0, hc0, rfl⟩ := hc
      exact ih c0 (lt_of_lt_of_le (ONode.sizeOf_lt_of_mem_children hc0)
        (uplusStrip_sizeOf_le n))

theorem uplusPass_of_noUPlus {n : ONode} (h : NoUPlus n) : uplusPass n = n := by
  induction n using ONode.strongInd with
  | _ n ih =>
    rw [uplusPass_def, uplusStrip_of_not h.root]
    have h2 : ∀ c ∈ n.children, uplusPass c = c := fun c hc =>
      ih c (ONode.sizeOf_lt_of_mem_children hc) (h.child hc)
    calc ONode.mk n.tok (n.children.map uplusPass)
        = ONode.mk n.tok n.children := by
          rw [List.map_congr_left h2]; simp
      _ = n := ONode.eta n

theorem noUPlus_negPass {n : ONode} (h : NoUPlus n) : NoUPlus (negPass n) := by
  induction n using ONode.strongInd with
  | _ n ih =>
    have hs : NoUPlus (negCollapse n) := AllNodes_negCollapse h
    rw [negPass_def]
    refine AllNodes.intro ?_ ?_
    · show uplusRedex _ = false
      rw [uplusRedex_mk_map, ONode.eta]
      exact hs.root
    · intro c hc
      simp only [ONode.children] at hc
      rw [List.mem_map] at hc
      obtain ⟨c0, hc0, rfl⟩ := hc
      exact ih c0 (lt_of_lt_of_le (ONode.sizeOf_lt_of_mem_children hc0)
        (negCollapse_sizeOf_le n)) (hs.child hc0)

theorem negPass_of_noNegNeg {n : ONode} (h : NoNegNeg n) : negPass n = n := by
  induction n using ONode.strongInd with
  | _ n ih =>
    rw [negPass_def, negCollapse_of_not h.root]
    have h2 : ∀ c ∈ n.children, negPass c = c := fun c hc =>
      ih c (ONode.sizeOf_lt_of_mem_children hc) (h.child hc)
    calc ONode.mk n.tok (n.children.map negPass)
        = ONode.mk n.tok n.children := by
          rw [List.map_congr_left h2]; simp
      _ = n := ONode.eta n

theorem negRedex_shape (tok : OToken) (d : ONode) :
    negRedex (.mk tok [d]) = true ↔
      (tok = .operatorTok .ARITHMETIC_NEGATION ∧
        ∃ x, d = .mk (.operatorTok .ARITHMETIC_NEGATION) [x]) := by
  obtain ⟨dtok, dcs⟩ := d
  rcases dcs with _ | ⟨a, _ | ⟨b, t⟩⟩ <;>
    simp only [negRedex, ONode.children, ONode.tok, Bool.and_eq_true, decide_eq_true_eq] <;>
    constructor
  · rintro ⟨h1, h2⟩; cases h2
  · rintro ⟨h1, x, h2⟩; cases h2
  · rintro ⟨h1, h2⟩; exact ⟨h1, a, by rw [h2]⟩
  · rintro ⟨h1, x, h2⟩
    injection h2 with h2a h2b
    injection h2b with h2c
    exact ⟨h1, h2a⟩
  · rintro ⟨h1, h2⟩; cases h2
  · rintro ⟨h1, x, h2⟩; cases h2

theorem negCollapse_of_not_singleton {d : ONode}
    (h : ¬∃ x, d = .mk (.operatorTok .ARITHMETIC_NEGATION) [x]) :
    negCollapse d = d := by
  rw [negCollapse.eq_def]
  split
  · rename_i x
    exact absurd ⟨.mk (.operatorTok .ARITHMETIC_NEGATION) [x], rfl⟩ h
  · rfl

theorem negPass_neg_singleton (d : ONode) :
    (∃ x, negPass d = .mk (.operatorTok .ARITHMETIC_NEGATION) [x]) ↔
      (∃ y, negCollapse d = .mk (.operatorTok .ARITHMETIC_NEGATION) [y]) := by
  rw [negPass_def]
  rcases hs : negCollapse d with ⟨stok, scs⟩
  simp only [ONode.tok, ONode.children]
  rcases scs with _ | ⟨a, _ | ⟨b, t⟩⟩ <;> constructor
  · rintro ⟨x, hx⟩; cases hx
  · rintro ⟨y, hy⟩; cases hy
  · rintro ⟨x, hx⟩
    injection hx with h1 h2
    injection h2 with h3
    exact ⟨a, by rw [h1]⟩
  · rintro ⟨y, hy⟩
    injection hy with h1 h2
    injection h2 with h3
    exact ⟨negPass a, by rw [h1]; rfl⟩
  · rintro ⟨x, hx⟩; cases hx
  · rintro ⟨y, hy⟩; cases hy

/-- C3 intermediate: the double-negation pass leaves no double-negation
redex. -/
theorem noNegNeg_negPass (n : ONode) : NoNegNeg (negPass n) := by
  induction n using ONode.strongInd with
  | _ n ih =>
    have hroot : negRedex (negCollapse n) = false := negRedex_negCollapse n
    rw [negPass_def]
    refine AllNodes.intro ?_ ?_
    · show negRedex _ = false
      rcases hs : negCollapse n with ⟨stok, scs⟩
      rw [hs] at hroot
      simp only [ONode.tok, ONode.children]
      rcases scs with _ | ⟨d, _ | ⟨b, t⟩⟩
      · rfl
      · simp only [List.map_cons, List.map_nil]
        by_cases hredex :
            negRedex (.mk stok [negPass d]) = true
        · exfalso
          rw [negRedex_shape] at hredex
          obtain ⟨htok, x, hx⟩ := hredex
          have hd : ¬∃ y, d = .mk (.operatorTok .ARITHMETIC_NEGATION) [y] := by
            rintro ⟨y, rfl⟩
            rw [htok] at hroot
            rw [show negRedex
                (ONode.mk (OToken.operatorTok .ARITHMETIC_NEGATION)
                  [ONode.mk (OToken.operatorTok .ARITHMETIC_NEGATION) [y]]) = true by
              rw [negRedex_shape]; exact ⟨rfl, y, rfl⟩] at hroot
            cases hroot
          have := (negPass_neg_singleton d).mp ⟨x, hx⟩
          rw [negCollapse_of_not_singleton hd] at this
          exact hd this
        · simpa using hredex
      · rfl
    · intro c hc
      simp only [ONode.children] at hc
      rw [List.mem_map] at hc
      obtain ⟨c0, hc0, rfl⟩ := hc
      exact ih c0 (lt_of_lt_of_le (ONode.sizeOf_lt_of_mem_children hc0)
        (negCollapse_sizeOf_le n))

/-- The numeric value of a constant token, if any: the only part of a child
token the trivial-operation redex conditions inspect. -/
def constVal? : OToken → Option ℚ
  | .constant v => some v
  | _ => none

theorem constVal?_eq_none_of_nonConst {tok : OToken} (h : nonConst tok) :
    constVal? tok = none := by
  cases tok with
  | constant v => exact absurd rfl (h v)
  | _ => rfl

theorem isZeroConstant_congr {t t' : OToken} (h : constVal? t = constVal? t') :
    isZeroConstant t = isZeroConstant t' := by
  cases t <;> cases t' <;> simp_all [constVal?, isZeroConstant]

theorem isOneConstant_congr {t t' : OToken} (h : constVal? t = constVal? t') :
    isOneConstant t = isOneConstant t' := by
  cases t <;> cases t' <;> simp_all [constVal?, isOneConstant]

theorem foldArg1_congr (tok : OToken) {t t' : OToken}
    (h : constVal? t = constVal? t') :
    foldArg1 tok t = foldArg1 tok t' := by
  cases t <;> cases t' <;> simp only [constVal?] at h <;>
    first
      | rfl
      | (injection h with e; simp [foldArg1, e])
      | injection h

theorem foldArg2_congr (tok : OToken) {l l' r r' : OToken}
    (h1 : constVal? l = constVal? l') (h2 : constVal? r = constVal? r') :
    foldArg2 tok l r = foldArg2 tok l' r' := by
  cases l <;> cases l' <;> cases r <;> cases r' <;>
    simp only [constVal?] at h1 h2 <;>
    first
      | rfl
      | (injection h1 with e1
         first
           | (injection h2 with e2; simp [foldArg2, e1, e2])
           | injection h2)
      | injection h1

theorem redex_congr (tok : OToken) {cs cs' : List ONode}
    (h : List.Forall₂ (fun c c' => constVal? c.tok = constVal? c'.tok) cs cs') :
    multRedex (.mk tok cs) = multRedex (.mk tok cs') ∧
    addRedex (.mk tok cs) = addRedex (.mk tok cs') ∧
    foldRedex (.mk tok cs) = foldRedex (.mk tok cs') := by
  cases h with
  | nil => exact ⟨rfl, rfl, rfl⟩
  | cons h1 hrest =>
    rename_i a a' l l'
    obtain ⟨atok, acs⟩ := a
    obtain ⟨atok', acs'⟩ := a'
    simp only [ONode.tok] at h1
    cases hrest with
    | nil =>
      refine ⟨rfl, rfl, ?_⟩
      simp only [foldRedex, ONode.children, ONode.tok]
      split
      · rfl
      · exact foldArg1_congr tok h1
    | cons h2 hrest2 =>
      rename_i b b' t t'
      obtain ⟨btok, bcs⟩ := b
      obtain ⟨btok', bcs'⟩ := b'
      simp only [ONode.tok] at h2
      cases hrest2 with
      | nil =>
        refine ⟨?_, ?_, ?_⟩
        · simp only [multRedex, ONode.children, ONode.tok,
            isZeroConstant_congr h1, isOneConstant_congr h1,
            isZeroConstant_congr h2, isOneConstant_congr h2]
        · simp only [addRedex, ONode.children, ONode.tok,
            isZeroConstant_congr h1, isZeroConstant_congr h2]
        · simp only [foldRedex, ONode.children, ONode.tok]
          split
          · rfl
          · exact foldArg2_congr tok h1 h2
      | cons h3 hrest3 => exact ⟨rfl, rfl, rfl⟩

theorem nonConst_operatorTok (op : OperatorType) :
    nonConst (.operatorTok op) := by
  intro v h
  cases h

/-- In a trivially-normal tree, collapsing double negations either does
nothing or uncovers a non-constant root: a constant under a negation would
have been folded. -/
theorem negCollapse_tok_of_trivNormal {t : ONode} (h : TrivNormal t) :
    negCollapse t = t ∨ (nonConst (negCollapse t).tok ∧ nonConst t.tok) := by
  induction t using negCollapse.induct with
  | case1 x ih =>
    rw [negCollapse]
    right
    have hinner : TrivNormal (.mk (.operatorTok .ARITHMETIC_NEGATION) [x]) :=
      h.child (by simp [ONode.children])
    have hx : TrivNormal x := hinner.child (by simp [ONode.children])
    have hfold : foldRedex (.mk (.operatorTok .ARITHMETIC_NEGATION) [x]) = false :=
      hinner.root.2.2
    have hxnc : nonConst x.tok := by
      intro v hv
      rw [foldRedex] at hfold
      rw [if_neg (by simp [ONode.tok])] at hfold
      simp only [ONode.children] at hfold
      rw [hv] at hfold
      simp [foldArg1, ONode.tok, tokenCalculate, calculate] at hfold
    rcases ih hx with heq | ⟨hnc1, _⟩
    · rw [heq]
      exact ⟨hxnc, nonConst_operatorTok _⟩
    · exact ⟨hnc1, nonConst_operatorTok _⟩
  | case2 n hn =>
    left
    rw [negCollapse.eq_def]
    split
    · rename_i x; exact absurd rfl (hn x)
    · rfl

/-- C3 intermediate: the double-negation pass preserves trivial normality. -/
theorem trivNormal_negPass {n : ONode} (h : TrivNormal n) :
    TrivNormal (negPass n) := by
  induction n using ONode.strongInd with
  | _ n ih =>
    have hs : TrivNormal (negCollapse n) := AllNodes_negCollapse h
    rw [negPass_def]
    refine AllNodes.intro ?_ ?_
    · have hfa : List.Forall₂ (fun c c' => constVal? c.tok = constVal? c'.tok)
          ((negCollapse n).children.map negPass) (negCollapse n).children := by
        rw [List.forall₂_map_left_iff]
        rw [List.forall₂_same]
        intro c hc
        have hcn : TrivNormal c := hs.child hc
        rw [negPass_def]
        rcases negCollapse_tok_of_trivNormal hcn with heq | ⟨hnc1, hnc2⟩
        · rw [heq]
          simp [ONode.tok]
        · show constVal? (negCollapse c).tok = constVal? c.tok
          rw [constVal?_eq_none_of_nonConst hnc1, constVal?_eq_none_of_nonConst hnc2]
      have hcongr := redex_congr (negCollapse n).tok hfa
      have hroot := hs.root
      rw [show trivNormalRoot (negCollapse n) ↔
          trivNormalRoot (.mk (negCollapse n).tok (negCollapse n).children) by
        rw [ONode.eta]] at hroot
      exact ⟨hcongr.1.trans hroot.1, hcongr.2.1.trans hroot.2.1,
        hcongr.2.2.trans hroot.2.2⟩
    · intro c hc
      simp only [ONode.children] at hc
      rw [List.mem_map] at hc
      obtain ⟨c0, hc0, rfl⟩ := hc
      exact ih c0 (lt_of_lt_of_le (ONode.sizeOf_lt_of_mem_children hc0)
        (negCollapse_sizeOf_le n)) (hs.child hc0)

theorem trivMultCur_cases {n : ONode} (h : ∀ c ∈ n.children, TrivNormal c) :
    (trivMultCur n = n ∧ multRedex n = false) ∨ TrivNormal (trivMultCur n) := by
  rw [trivMultCur.eq_def]
  split
  · rename_i l r
    have hl : TrivNormal l := h l (by simp [ONode.children])
    have hr : TrivNormal r := h r (by simp [ONode.children])
    by_cases h1 : (isZeroConstant l.tok || isOneConstant r.tok) = true
    · rw [if_pos h1, trivMultCur_of_not hl.root.1]
      exact Or.inr hl
    · rw [if_neg h1]
      by_cases h2 : (isZeroConstant r.tok || isOneConstant l.tok) = true
      · rw [if_pos h2, trivMultCur_of_not hr.root.1]
        exact Or.inr hr
      · rw [if_neg h2]
        left
        refine ⟨rfl, ?_⟩
        rw [multRedex]
        simp only [ONode.children, ONode.tok]
        simp only [Bool.or_eq_true, not_or, Bool.not_eq_true] at h1 h2
        show (decide True &&
          (isZeroConstant l.tok || isOneConstant r.tok ||
            isZeroConstant r.tok || isOneConstant l.tok)) = false
        rw [h1.1, h1.2, h2.1, h2.2]
        rfl
  · rename_i n2 hn
    left
    refine ⟨rfl, ?_⟩
    rw [multRedex]
    split
    · rename_i l r hc
      by_cases htok : n.tok = OToken.operatorTok .MULTIPLICATION
      · exact absurd (ONode.eta n ▸ htok ▸ congrArg (ONode.mk n.tok) hc) (hn l r)
      · simp [htok]
    · rfl

theorem trivAddCur_cases {n : ONode} (h : ∀ c ∈ n.children, TrivNormal c) :
    (trivAddCur n = n ∧ addRedex n = false) ∨ TrivNormal (trivAddCur n) := by
  rw [trivAddCur.eq_def]
  split
  · rename_i l r
    have hl : TrivNormal l := h l (by simp [ONode.children])
    have hr : TrivNormal r := h r (by simp [ONode.children])
    by_cases h1 : isZeroConstant l.tok = true
    · rw [if_pos h1, trivAddCur_of_not hr.root.2.1]
      exact Or.inr hr
    · rw [if_neg h1]
      by_cases h2 : isZeroConstant r.tok = true
      · rw [if_pos h2, trivAddCur_of_not hl.root.2.1]
        exact Or.inr hl
      · rw [if_neg h2]
        left
        refine ⟨rfl, ?_⟩
        rw [addRedex]
        simp only [ONode.children, ONode.tok]
        simp only [Bool.not_eq_true] at h1 h2
        show (decide True &&
          (isZeroConstant l.tok || isZeroConstant r.tok)) = false
        rw [h1, h2]
        rfl
  · rename_i n2 hn
    left
    refine ⟨rfl, ?_⟩
    rw [addRedex]
    split
    · rename_i l r hc
      by_cases htok : n.tok = OToken.operatorTok .ADDITION
      · exact absurd (ONode.eta n ▸ htok ▸ congrArg (ONode.mk n.tok) hc) (hn l r)
      · simp [htok]
    · rfl

theorem trivNormal_constant (v : ℚ) : TrivNormal (.mk (.constant v) []) := by
  refine AllNodes.intro ⟨rfl, rfl, rfl⟩ ?_
  simp [ONode.children]

/-- The composite trivial-operations rewrite yields a trivially-normal node
whenever the children are trivially normal. -/
theorem compositeCur_normal {n : ONode} (h : ∀ c ∈ n.children, TrivNormal c) :
    TrivNormal (compositeCur n) := by
  unfold compositeCur
  rcases trivMultCur_cases h with ⟨hEq, hMult⟩ | hNorm
  · rw [hEq]
    rcases trivAddCur_cases h with ⟨hEq2, hAdd⟩ | hNorm2
    · rw [hEq2]
      rcases compressorCur_cases n with ⟨hFold, hEq3⟩ | ⟨_, v, hEq3⟩
      · rw [hEq3]
        exact AllNodes.intro ⟨hMult, hAdd, hFold⟩ h
      · rw [hEq3]
        exact trivNormal_constant v
    · rw [compressorCur_of_not hNorm2.root.2.2]
      exact hNorm2
  · rw [trivAddCur_of_not hNorm.root.2.1, compressorCur_of_not hNorm.root.2.2]
    exact hNorm

/-- C3 intermediate: the trivial-operations pass normalizes every tree. -/
theorem trivNormal_trivPass (n : ONode) : TrivNormal (trivPass n) := by
  induction n using ONode.strongInd with
  | _ n ih =>
    rw [trivPass_def]
    apply compositeCur_normal
    intro c hc
    simp only [ONode.children] at hc
    rw [List.mem_map] at hc
    obtain ⟨c0, hc0, rfl⟩ := hc
    exact ih c0 (ONode.sizeOf_lt_of_mem_children hc0)

theorem trivPass_of_normal {n : ONode} (h : TrivNormal n) : trivPass n = n := by
  induction n using ONode.strongInd with
  | _ n ih =>
    rw [trivPass_def]
    have h2 : ∀ c ∈ n.children, trivPass c = id c := fun c hc =>
      ih c (ONode.sizeOf_lt_of_mem_children hc) (h.child hc)
    rw [List.map_congr_left h2]
    simp only [List.map_id]
    rw [ONode.eta]
    unfold compositeCur
    rw [trivMultCur_of_not h.root.1, trivAddCur_of_not h.root.2.1,
      compressorCur_of_not h.root.2.2]

theorem uplusRedex_constant (v : ℚ) :
    uplusRedex (.mk (.constant v) []) = false := rfl

/-- C3 intermediate: the trivial-operations pass preserves freedom from
unary-addition redexes. -/
theorem noUPlus_trivPass {n : ONode} (h : NoUPlus n) : NoUPlus (trivPass n) := by
  induction n using ONode.strongInd with
  | _ n ih =>
    rw [trivPass_def]
    have hInner : NoUPlus (.mk n.tok (n.children.map trivPass)) := by
      refine AllNodes.intro ?_ ?_
      · show uplusRedex _ = false
        rw [uplusRedex_mk_map, ONode.eta]
        exact h.root
      · intro c hc
        simp only [ONode.children] at hc
        rw [List.mem_map] at hc
        obtain ⟨c0, hc0, rfl⟩ := hc
        exact ih c0 (ONode.sizeOf_lt_of_mem_children hc0) (h.child hc0)
    exact AllNodes_compositeCur (fun v => uplusRedex_constant v) hInner

/-- C3 amended: the default pipeline is not idempotent; a second application
equals the double-negation pass applied to the first output (it can only
collapse double negations the trivial-operations pass exposed), and a third
application yields the second one's result unchanged: two applications reach
the fixpoint. -/
theorem pipeline_second_fix (t : ONode) :
    pipeline (pipeline t) = negPass (pipeline t) ∧
    pipeline (pipeline (pipeline t)) = pipeline (pipeline t) := by
  have hU : ∀ s : ONode, NoUPlus (pipeline s) := fun s =>
    noUPlus_trivPass (noUPlus_negPass (noUPlus_uplusPass s))
  have hT : ∀ s : ONode, TrivNormal (pipeline s) := fun s => trivNormal_trivPass _
  have key : ∀ s : ONode, pipeline (pipeline s) = negPass (pipeline s) := by
    intro s
    show trivPass (negPass (uplusPass (pipeline s))) = _
    rw [uplusPass_of_noUPlus (hU s)]
    exact trivPass_of_normal (trivNormal_negPass (hT s))
  refine ⟨key t, ?_⟩
  calc pipeline (pipeline (pipeline t))
      = negPass (pipeline (pipeline t)) := key (pipeline t)
    _ = negPass (negPass (pipeline t)) := by rw [key t]
    _ = negPass (pipeline t) := negPass_of_noNegNeg (noNegNeg_negPass _)
    _ = pipeline (pipeline t) := (key t).symm

def optVarX : ONode := .mk (.variableTok "x") []

/-- Source `-(1 * -x)`: the one-multiplication hides a double negation from the
pre-composed negation pass. -/
def negMulOneNegX : ONode :=
  .mk (.operatorTok .ARITHMETIC_NEGATION)
    [.mk (.operatorTok .MULTIPLICATION)
      [.mk (.constant 1) [], .mk (.operatorTok .ARITHMETIC_NEGATION) [optVarX]]]

def oneConst : ONode := .mk (.constant 1) []

def negX : ONode := .mk (.operatorTok .ARITHMETIC_NEGATION) [optVarX]

theorem uplusPass_negMulOneNegX : uplusPass negMulOneNegX = negMulOneNegX := by
  have hx : uplusPass optVarX = optVarX := by rw [uplusPass_def]; rfl
  have hnx : uplusPass negX = negX := by
    rw [uplusPass_def]
    show ONode.mk (.operatorTok .ARITHMETIC_NEGATION) (List.map uplusPass [optVarX]) = _
    rw [List.map_cons, List.map_nil, hx]
    rfl
  have hone : uplusPass oneConst = oneConst := by rw [uplusPass_def]; rfl
  have hmul : uplusPass (.mk (.operatorTok .MULTIPLICATION) [oneConst, negX]) =
      .mk (.operatorTok .MULTIPLICATION) [oneConst, negX] := by
    rw [uplusPass_def]
    show ONode.mk (.operatorTok .MULTIPLICATION) (List.map uplusPass [oneConst, negX]) = _
    rw [List.map_cons, List.map_cons, List.map_nil, hone, hnx]
  rw [uplusPass_def]
  show ONode.mk (.operatorTok .ARITHMETIC_NEGATION)
    (List.map uplusPass [.mk (.operatorTok .MULTIPLICATION) [oneConst, negX]]) = _
  rw [List.map_cons, List.map_nil, hmul]
  rfl

theorem negPass_negMulOneNegX : negPass negMulOneNegX = negMulOneNegX := by
  have hx : negPass optVarX = optVarX := by rw [negPass_def]; rfl
  have hnx : negPass negX = negX := by
    rw [negPass_def]
    show ONode.mk (.operatorTok .ARITHMETIC_NEGATION) (List.map negPass [optVarX]) = _
    rw [List.map_cons, List.map_nil, hx]
    rfl
  have hone : negPass oneConst = oneConst := by rw [negPass_def]; rfl
  have hmul : negPass (.mk (.operatorTok .MULTIPLICATION) [oneConst, negX]) =
      .mk (.operatorTok .MULTIPLICATION) [oneConst, negX] := by
    rw [negPass_def]
    show ONode.mk (.operatorTok .MULTIPLICATION) (List.map negPass [oneConst, negX]) = _
    rw [List.map_cons, List.map_cons, List.map_nil, hone, hnx]
  rw [negPass_def]
  show ONode.mk (.operatorTok .ARITHMETIC_NEGATION)
    (List.map negPass [.mk (.operatorTok .MULTIPLICATION) [oneConst, negX]]) = _
  rw [List.map_cons, List.map_nil, hmul]
  rfl

theorem trivPass_optVarX : trivPass optVarX = optVarX := by
  rw [trivPass_def]; rfl

theorem trivPass_negX : trivPass negX = negX := by
  rw [trivPass_def]
  show compositeCur (.mk (.operatorTok .ARITHMETIC_NEGATION)
    (List.map trivPass [optVarX])) = _
  rw [List.map_cons, List.map_nil, trivPass_optVarX]
  rfl

theorem trivPass_negMulOneNegX :
    trivPass negMulOneNegX =
      .mk (.operatorTok .ARITHMETIC_NEGATION) [negX] := by
  have hone : trivPass oneConst = oneConst := by rw [trivPass_def]; rfl
  have hc1 : (isZeroConstant oneConst.tok || isOneConstant negX.tok) = false := by
    show (isZeroConstant (.constant 1) || isOneConstant (.operatorTok .ARITHMETIC_NEGATION)) = false
    simp only [isZeroConstant, isOneConstant, COMPARE_EPS, Bool.or_false]
    norm_num
  have hc2 : (isZeroConstant negX.tok || isOneConstant oneConst.tok) = true := by
    show (isZeroConstant (.operatorTok .ARITHMETIC_NEGATION) || isOneConstant (.constant 1)) = true
    simp only [isZeroConstant, isOneConstant, COMPARE_EPS, Bool.false_or]
    norm_num
  have hmcur : trivMultCur (.mk (.operatorTok .MULTIPLICATION) [oneConst, negX]) = negX := by
    rw [trivMultCur.eq_def]
    show (if (isZeroConstant oneConst.tok || isOneConstant negX.tok) = true
        then trivMultCur oneConst
        else if (isZeroConstant negX.tok || isOneConstant oneConst.tok) = true
          then trivMultCur negX
          else .mk (.operatorTok .MULTIPLICATION) [oneConst, negX]) = negX
    rw [hc1, hc2]
    simp only [Bool.false_eq_true, if_false, if_pos]
    rfl
  have hmul : trivPass (.mk (.operatorTok .MULTIPLICATION) [oneConst, negX]) = negX := by
    rw [trivPass_def]
    show compositeCur (.mk (.operatorTok .MULTIPLICATION)
      (List.map trivPass [oneConst, negX])) = _
    rw [List.map_cons, List.map_cons, List.map_nil, hone, trivPass_negX]
    unfold compositeCur
    rw [hmcur]
    rfl
  rw [trivPass_def]
  show compositeCur (.mk (.operatorTok .ARITHMETIC_NEGATION)
    (List.map trivPass [.mk (.operatorTok .MULTIPLICATION) [oneConst, negX]])) = _
  rw [List.map_cons, List.map_nil, hmul]
  rfl

theorem pipeline_negMulOneNegX :
    pipeline negMulOneNegX = .mk (.operatorTok .ARITHMETIC_NEGATION) [negX] := by
  show trivPass (negPass (uplusPass negMulOneNegX)) = _
  rw [uplusPass_negMulOneNegX, negPass_negMulOneNegX, trivPass_negMulOneNegX]

theorem pipeline_negNegX :
    pipeline (.mk (.operatorTok .ARITHMETIC_NEGATION) [negX]) = optVarX := by
  have hu : uplusPass (.mk (.operatorTok .ARITHMETIC_NEGATION) [negX]) =
      .mk (.operatorTok .ARITHMETIC_NEGATION) [negX] := by
    have hx : uplusPass optVarX = optVarX := by rw [uplusPass_def]; rfl
    have hnx : uplusPass negX = negX := by
      rw [uplusPass_def]
      show ONode.mk (.operatorTok .ARITHMETIC_NEGATION) (List.map uplusPass [optVarX]) = _
      rw [List.map_cons, List.map_nil, hx]
      rfl
    rw [uplusPass_def]
    show ONode.mk (.operatorTok .ARITHMETIC_NEGATION) (List.map uplusPass [negX]) = _
    rw [List.map_cons, List.map_nil, hnx]
  have hn : negPass (.mk (.operatorTok .ARITHMETIC_NEGATION) [negX]) = optVarX := by
    rw [negPass_def]
    rfl
  show trivPass (negPass (uplusPass _)) = _
  rw [hu, hn, trivPass_optVarX]

/-- C3 counterexample: on `-(1 * -x)` the first pipeline application yields
`--x` (the trivial multiplication exposes a double negation after the
negation pass has already run) and the second application collapses it to
`x`, so the pipeline is not idempotent. -/
theorem optimizer_pipeline_not_idempotent :
    pipeline negMulOneNegX =
      .mk (.operatorTok .ARITHMETIC_NEGATION) [negX] ∧
    pipeline (pipeline negMulOneNegX) = optVarX ∧
    pipeline (pipeline negMulOneNegX) ≠ pipeline negMulOneNegX := by
  refine ⟨pipeline_negMulOneNegX, ?_, ?_⟩
  · rw [pipeline_negMulOneNegX]
    exact pipeline_negNegX
  · rw [pipeline_negMulOneNegX, pipeline_negNegX]
    intro h
    simp [optVarX] at h
